import Mathlib

/-!
Verification development for the naiveproxy excerpt.

Part 1 models the backend of `SQLitePersistentSharedDictionaryStore`
(`src/net/extras/sqlite/sqlite_persistent_shared_dictionary_store.cc`).
The `dictionaries` table is a list of rows; the MetaTable entry
`total_dict_size` is the `totalDictSize` field.  SQL always succeeds in the
model (the queries are compile-time constants validated by `IsSQLValid`, and
I/O failures are out of scope); the errors kept are the data-dependent ones:
`kTooBigDictionary` and `kInvalidTotalDictSize` (CheckedNumeric validity
checks).  `crash` stands for a `CHECK`/`ValueOrDie`/`checked_cast` process
abort, which is not a typed store error.

Part 2 (below) models `HttpCache::Writers` (`src/unnamed/part_000`).
-/

namespace SharedDictStore

/-- One row of the `dictionaries` table (see `CreateV1Schema`).  `matchValue`
is the `match` column (a Lean keyword).  Times are the raw integer
microsecond values SQLite stores. -/
structure DictRecord where
  id : Nat
  frameOrigin : String
  topFrameSite : String
  host : String
  matchValue : String
  url : String
  resTime : Int
  expTime : Int
  lastUsedTime : Int
  size : Nat
  tokenHigh : Nat
  tokenLow : Nat
  deriving DecidableEq

/-- `ToUnguessableToken` deserialises `(token_high, token_low)` and fails
exactly when both halves are zero (`UnguessableToken::Deserialize`). -/
def tokenValid (r : DictRecord) : Bool :=
  !(r.tokenHigh == 0 && r.tokenLow == 0)

/-- Backend state: the table rows, the MetaTable running total
(`total_dict_size`), and the next SQLite rowid to be handed out by
`INSERT` (AUTOINCREMENT). -/
structure StoreState where
  dictionaries : List DictRecord
  totalDictSize : Nat
  nextId : Nat
  deriving DecidableEq

/-- The data-dependent outcomes of a backend operation.  `crash` models a
`CHECK` failure / `ValueOrDie` / `checked_cast` process abort. -/
inductive StoreError where
  | kTooBigDictionary
  | kInvalidTotalDictSize
  | crash
  deriving DecidableEq

/-- `SharedDictionaryIsolationKey`: (frame origin, top-frame site), both
serialised to strings as the backend stores them. -/
structure IsolationKey where
  frameOrigin : String
  topFrameSite : String
  deriving DecidableEq

/-- The fields of `SharedDictionaryInfo` that `RegisterDictionaryImpl` binds
into the INSERT (`host` is `SchemeHostPort(url).Serialize()`). -/
structure DictInput where
  host : String
  matchValue : String
  url : String
  resTime : Int
  expTime : Int
  lastUsedTime : Int
  size : Nat
  tokenHigh : Nat
  tokenLow : Nat
  deriving DecidableEq

def DictInput.hasValidToken (d : DictInput) : Bool :=
  !(d.tokenHigh == 0 && d.tokenLow == 0)

def sumSizes (l : List DictRecord) : Nat :=
  (l.map DictRecord.size).sum

/-- Order used by `ORDER BY last_used_time`: ascending last-used time.  The
SQLite index scan breaks ties by rowid, which the model mirrors. -/
def lruLE (a b : DictRecord) : Prop :=
  a.lastUsedTime < b.lastUsedTime ∨ (a.lastUsedTime = b.lastUsedTime ∧ a.id ≤ b.id)

instance : DecidableRel lruLE := fun a b => by
  unfold lruLE; infer_instance

def sortByLastUsedTime (l : List DictRecord) : List DictRecord :=
  List.insertionSort lruLE l

theorem sortByLastUsedTime_perm (l : List DictRecord) :
    List.Perm (sortByLastUsedTime l) l :=
  List.perm_insertionSort lruLE l

/-- Order used by `ORDER BY id`. -/
def idLE (a b : DictRecord) : Prop := a.id ≤ b.id

instance : DecidableRel idLE := fun a b => by
  unfold idLE; infer_instance

def sortById (l : List DictRecord) : List DictRecord :=
  List.insertionSort idLE l

/-- The WHERE clause of `GetExistingDictionarySizeAndDiskCacheKeyToken`:
`frame_origin=? AND top_frame_site=? AND host=? AND match=?`. -/
def identityMatches (key : IsolationKey) (host matchValue : String)
    (r : DictRecord) : Bool :=
  r.frameOrigin == key.frameOrigin && r.topFrameSite == key.topFrameSite &&
    r.host == host && r.matchValue == matchValue

/-- `GetExistingDictionarySizeAndDiskCacheKeyToken`: first row (ORDER BY id)
matching the identity key, if any. -/
def getExistingDictionary (st : StoreState) (key : IsolationKey)
    (host matchValue : String) : Option DictRecord :=
  (sortById (st.dictionaries.filter (identityMatches key host matchValue))).head?

/-- `UpdateTotalDictionarySizeInMetaTable`: CheckedNumeric<uint64_t> total
plus int64 delta; invalid (negative or ≥ 2^64) is
`Error::kInvalidTotalDictSize`. -/
def updateTotalDictionarySize (st : StoreState) (sizeDelta : Int) :
    Except StoreError (StoreState × Nat) :=
  let v : Int := (st.totalDictSize : Int) + sizeDelta
  if 0 ≤ v ∧ v < (2 : Int) ^ 64 then
    .ok ({ st with totalDictSize := v.toNat }, v.toNat)
  else
    .error .kInvalidTotalDictSize

/-- `SELECT SUM(size) FROM dictionaries WHERE top_frame_site=?`. -/
def getDictionarySizePerSite (st : StoreState) (site : String) : Nat :=
  sumSizes (st.dictionaries.filter (fun r => r.topFrameSite == site))

/-- `SELECT COUNT(id) FROM dictionaries WHERE top_frame_site=?`. -/
def getDictionaryCountPerSite (st : StoreState) (site : String) : Nat :=
  (st.dictionaries.filter (fun r => r.topFrameSite == site)).length

/-- The scan loop of `SelectCandidatesForPerSiteEviction`: walk the site's
rows in LRU order, skipping rows whose token fails to deserialise,
accumulating candidate sizes into a CheckedNumeric<int64_t> (invalid at
2^63 is `kInvalidTotalDictSize`), and stop once
`total_size_of_candidates >= to_be_removed_size` and
`#tokens >= to_be_removed_count`.  Returns the victims in scan order and the
final accumulated candidate size. -/
def selectCandidatesLoop (toBeRemovedSize toBeRemovedCount : Nat) :
    List DictRecord → Nat → Nat → Except StoreError (List DictRecord × Nat)
  | [], accSize, _accCount => .ok ([], accSize)
  | r :: rest, accSize, accCount =>
    if !(tokenValid r) then
      selectCandidatesLoop toBeRemovedSize toBeRemovedCount rest accSize accCount
    else
      let accSize2 := accSize + r.size
      if (2 : Nat) ^ 63 ≤ accSize2 then
        .error .kInvalidTotalDictSize
      else if toBeRemovedSize ≤ accSize2 ∧ toBeRemovedCount ≤ accCount + 1 then
        .ok ([r], accSize2)
      else
        match selectCandidatesLoop toBeRemovedSize toBeRemovedCount rest accSize2 (accCount + 1) with
        | .error e => .error e
        | .ok (vs, s) => .ok (r :: vs, s)

/-- `SelectCandidatesForPerSiteEviction`. -/
def selectCandidatesForPerSiteEviction (st : StoreState) (site : String)
    (maxSizePerSite maxCountPerSite : Nat) :
    Except StoreError (List DictRecord × Nat) :=
  let sizePerSite := getDictionarySizePerSite st site
  let countPerSite := getDictionaryCountPerSite st site
  if (maxSizePerSite = 0 ∨ sizePerSite ≤ maxSizePerSite) ∧ countPerSite ≤ maxCountPerSite then
    .ok ([], 0)
  else
    let toBeRemovedCount := if maxCountPerSite < countPerSite then countPerSite - maxCountPerSite else 0
    let toBeRemovedSize :=
      if maxSizePerSite ≠ 0 ∧ maxSizePerSite < sizePerSite then sizePerSite - maxSizePerSite else 0
    selectCandidatesLoop toBeRemovedSize toBeRemovedCount
      (sortByLastUsedTime (st.dictionaries.filter (fun r => r.topFrameSite == site))) 0 0

/-- `DeleteDictionaryByPrimaryKey`, iterated over a victim list (the
`for (int64_t primary_key : primary_keys)` loops). -/
def deleteRowsByPrimaryKeys (rows : List DictRecord) (victims : List DictRecord) :
    List DictRecord :=
  victims.foldl (fun rs v => rs.filter (fun r => r.id != v.id)) rows

/-- `MaybeEvictDictionariesForPerSiteLimit`: select per-site victims, delete
them, subtract their total size from the running total. -/
def maybeEvictDictionariesForPerSiteLimit (st : StoreState) (site : String)
    (maxSizePerSite maxCountPerSite : Nat) :
    Except StoreError (StoreState × List DictRecord) :=
  match selectCandidatesForPerSiteEviction st site maxSizePerSite maxCountPerSite with
  | .error e => .error e
  | .ok (victims, candSize) =>
    if victims = [] then
      .ok (st, [])
    else
      let st2 := { st with dictionaries := deleteRowsByPrimaryKeys st.dictionaries victims }
      match updateTotalDictionarySize st2 (-(candSize : Int)) with
      | .error e => .error e
      | .ok (st3, _) => .ok (st3, victims)

/-- `RegisterDictionaryResult`. -/
structure RegisterDictionaryResult where
  primaryKeyInDatabase : Nat
  replacedToken : Option (Nat × Nat)
  evictedTokens : List (Nat × Nat)
  totalDictionarySize : Nat
  totalDictionaryCount : Nat
  deriving DecidableEq

/-- The row built by the `INSERT OR REPLACE` of `RegisterDictionaryImpl`. -/
def newRecord (st : StoreState) (key : IsolationKey) (d : DictInput) : DictRecord :=
  { id := st.nextId, frameOrigin := key.frameOrigin, topFrameSite := key.topFrameSite,
    host := d.host, matchValue := d.matchValue, url := d.url, resTime := d.resTime,
    expTime := d.expTime, lastUsedTime := d.lastUsedTime, size := d.size,
    tokenHigh := d.tokenHigh, tokenLow := d.tokenLow }

/-- The `size_delta` computation of `RegisterDictionaryImpl` (lines 468-476):
new size minus the replaced row's size when an identity match exists,
otherwise the new size. -/
def computeSizeDelta (st : StoreState) (key : IsolationKey) (d : DictInput) : Int :=
  match getExistingDictionary st key d.host d.matchValue with
  | some old => (d.size : Int) - (old.size : Int)
  | none => (d.size : Int)

/-- The `replaced_disk_cache_key_token` out-value of
`GetExistingDictionarySizeAndDiskCacheKeyToken` (nullopt when the stored
token fails to deserialise). -/
def registerReplacedToken (st : StoreState) (key : IsolationKey) (d : DictInput) :
    Option (Nat × Nat) :=
  match getExistingDictionary st key d.host d.matchValue with
  | some old => if tokenValid old then some (old.tokenHigh, old.tokenLow) else none
  | none => none

/-- The table after the `INSERT OR REPLACE`: the unique identity index makes
REPLACE drop every identity-matching row, then the new row is inserted with
the fresh rowid. -/
def registerInsertState (st : StoreState) (key : IsolationKey) (d : DictInput) : StoreState :=
  { st with
    dictionaries :=
      st.dictionaries.filter (fun r => !(identityMatches key d.host d.matchValue r)) ++
        [newRecord st key d],
    nextId := st.nextId + 1 }

/-- `RegisterDictionaryImpl` after its `CHECK_NE(0u, max_count_per_site)`:
reject oversized dictionaries before the transaction, look up the replaced
row, INSERT OR REPLACE, apply `size_delta` to the running total, run the
per-site eviction, read the final count, commit. -/
def registerDictionaryImpl (st : StoreState) (key : IsolationKey) (d : DictInput)
    (maxSizePerSite maxCountPerSite : Nat) :
    Except StoreError (StoreState × RegisterDictionaryResult) :=
  if maxSizePerSite ≠ 0 ∧ maxSizePerSite < d.size then
    .error .kTooBigDictionary
  else
    match updateTotalDictionarySize (registerInsertState st key d) (computeSizeDelta st key d) with
    | .error e => .error e
    | .ok (st2, _) =>
      match maybeEvictDictionariesForPerSiteLimit st2 key.topFrameSite maxSizePerSite maxCountPerSite with
      | .error e => .error e
      | .ok (st3, victims) =>
        .ok (st3,
          { primaryKeyInDatabase := st.nextId,
            replacedToken := registerReplacedToken st key d,
            evictedTokens := victims.map (fun v => (v.tokenHigh, v.tokenLow)),
            totalDictionarySize := st3.totalDictSize,
            totalDictionaryCount := st3.dictionaries.length })

/-- `RegisterDictionaryImpl` including its entry `CHECK_NE(0u,
max_count_per_site)`: a zero per-site count budget aborts the process
(`none`), it is not a typed `Error`. -/
def registerDictionary (st : StoreState) (key : IsolationKey) (d : DictInput)
    (maxSizePerSite maxCountPerSite : Nat) :
    Option (Except StoreError (StoreState × RegisterDictionaryResult)) :=
  if maxCountPerSite = 0 then none
  else some (registerDictionaryImpl st key d maxSizePerSite maxCountPerSite)

/-- The scan loop of `SelectEvictionCandidates`: walk all rows in LRU order,
skipping rows whose token fails to deserialise, subtracting sizes from a
CheckedNumeric<uint64_t> running total (underflow is
`kInvalidTotalDictSize`), writing the running value through
`checked_cast<int64_t>` (a value ≥ 2^63 aborts the process), and stop once
`(cache_max_size == 0 || size_low_watermark >= running)` and
`#tokens >= to_be_removed_count`.  `lastOut` is the current value of the
`total_size_after_eviction` out-parameter (initially 0). -/
def selectEvictionLoop (cacheMaxSize sizeLowWatermark toBeRemovedCount : Nat) :
    List DictRecord → Nat → Nat → Nat → Except StoreError (List DictRecord × Nat)
  | [], _running, _removed, lastOut => .ok ([], lastOut)
  | r :: rest, running, removed, lastOut =>
    if !(tokenValid r) then
      selectEvictionLoop cacheMaxSize sizeLowWatermark toBeRemovedCount rest running removed lastOut
    else if running < r.size then
      .error .kInvalidTotalDictSize
    else
      let running2 := running - r.size
      if (2 : Nat) ^ 63 ≤ running2 then
        .error .crash
      else if (cacheMaxSize = 0 ∨ running2 ≤ sizeLowWatermark) ∧ toBeRemovedCount ≤ removed + 1 then
        .ok ([r], running2)
      else
        match selectEvictionLoop cacheMaxSize sizeLowWatermark toBeRemovedCount rest running2 (removed + 1) running2 with
        | .error e => .error e
        | .ok (vs, out) => .ok (r :: vs, out)

/-- `SelectEvictionCandidates`: read the running total and row count; if
both budgets are already met return no candidates; otherwise scan all rows
ordered by last-used time. -/
def selectEvictionCandidates (st : StoreState)
    (cacheMaxSize sizeLowWatermark cacheMaxCount countLowWatermark : Nat) :
    Except StoreError (List DictRecord × Nat) :=
  let totalDictionarySize := st.totalDictSize
  let totalDictionaryCount := st.dictionaries.length
  if (cacheMaxSize = 0 ∨ totalDictionarySize ≤ cacheMaxSize) ∧
      totalDictionaryCount ≤ cacheMaxCount then
    .ok ([], 0)
  else
    let toBeRemovedCount :=
      if countLowWatermark < totalDictionaryCount then totalDictionaryCount - countLowWatermark else 0
    selectEvictionLoop cacheMaxSize sizeLowWatermark toBeRemovedCount
      (sortByLastUsedTime st.dictionaries) totalDictionarySize 0 0

/-- `ProcessEvictionImpl`: select global eviction candidates, delete them,
and persist the exactly recomputed `total_size_after_eviction` (SetValue,
not a delta).  An empty candidate set returns without touching the store. -/
def processEviction (st : StoreState)
    (cacheMaxSize sizeLowWatermark cacheMaxCount countLowWatermark : Nat) :
    Except StoreError (StoreState × List (Nat × Nat)) :=
  match selectEvictionCandidates st cacheMaxSize sizeLowWatermark cacheMaxCount countLowWatermark with
  | .error e => .error e
  | .ok (victims, totalSizeAfterEviction) =>
    if victims = [] then
      .ok (st, [])
    else
      let st2 : StoreState :=
        { st with dictionaries := deleteRowsByPrimaryKeys st.dictionaries victims,
                  totalDictSize := totalSizeAfterEviction }
      .ok (st2, victims.map (fun v => (v.tokenHigh, v.tokenLow)))

/-- `ClearAllDictionariesImpl`: delete every row and set the running total
to zero, in one transaction. -/
def clearAllDictionaries (st : StoreState) : StoreState :=
  { st with dictionaries := [], totalDictSize := 0 }

/-- The WHERE clause `res_time>=? AND res_time<?`; a null `end_time` is
bound as `base::Time::Max()`, modelled as `none` (no upper bound). -/
def matchesTimeRange (startTime : Int) (endTime : Option Int) (r : DictRecord) : Bool :=
  decide (startTime ≤ r.resTime) &&
    (match endTime with
     | none => true
     | some e => decide (r.resTime < e))

/-- Row selection of `SelectMatchingDictionaries` /
`SelectMatchingDictionariesWithUrlMatcher`: rows in the response-time
range, passing the URL matcher (applied to the frame origin, top-frame site
and host strings) when one is given, and whose token deserialises (rows
with an invalid token are skipped: neither deleted nor counted). -/
def matchingRows (st : StoreState) (startTime : Int) (endTime : Option Int)
    (urlMatcher : Option (String → Bool)) : List DictRecord :=
  st.dictionaries.filter (fun r =>
    matchesTimeRange startTime endTime r &&
      (match urlMatcher with
       | none => true
       | some m => m r.frameOrigin || m r.topFrameSite || m r.host) &&
      tokenValid r)

/-- `ClearDictionariesImpl`: select the matching rows (the selection's
CheckedNumeric<int64_t> total crashes via `ValueOrDie` at 2^63), delete
them by primary key, and subtract their total size from the running total
when nonzero. -/
def clearDictionaries (st : StoreState) (startTime : Int) (endTime : Option Int)
    (urlMatcher : Option (String → Bool)) :
    Except StoreError (StoreState × List (Nat × Nat)) :=
  let victims := matchingRows st startTime endTime urlMatcher
  let totalSize := sumSizes victims
  if (2 : Nat) ^ 63 ≤ totalSize then
    .error .crash
  else
    let st2 : StoreState := { st with dictionaries := deleteRowsByPrimaryKeys st.dictionaries victims }
    if totalSize ≠ 0 then
      match updateTotalDictionarySize st2 (-(totalSize : Int)) with
      | .error e => .error e
      | .ok (st3, _) => .ok (st3, victims.map (fun v => (v.tokenHigh, v.tokenLow)))
    else
      .ok (st2, victims.map (fun v => (v.tokenHigh, v.tokenLow)))

/-- `DeleteExpiredDictionariesImpl`: `DELETE ... WHERE exp_time<=?
RETURNING size, token_high, token_low`.  Every deleted row's size is summed
(the size is accumulated before the token check) into a
CheckedNumeric<int64_t> read by `ValueOrDie`; only rows with a valid token
contribute to the returned token set. -/
def deleteExpiredDictionaries (st : StoreState) (now : Int) :
    Except StoreError (StoreState × List (Nat × Nat)) :=
  let removed := st.dictionaries.filter (fun r => decide (r.expTime ≤ now))
  let kept := st.dictionaries.filter (fun r => !(decide (r.expTime ≤ now)))
  let totalSize := sumSizes removed
  if (2 : Nat) ^ 63 ≤ totalSize then
    .error .crash
  else
    let st2 : StoreState := { st with dictionaries := kept }
    let tokens := (removed.filter tokenValid).map (fun v => (v.tokenHigh, v.tokenLow))
    if totalSize ≠ 0 then
      match updateTotalDictionarySize st2 (-(totalSize : Int)) with
      | .error e => .error e
      | .ok (st3, _) => .ok (st3, tokens)
    else
      .ok (st2, tokens)

/-- `DeleteDictionariesByDiskCacheKeyTokensImpl`: for each token delete the
matching rows (`DeleteDictionaryByDiskCacheToken`, RETURNING size),
accumulate the freed sizes, and subtract the total when nonzero.  The
accumulations go through CheckedNumeric + `ValueOrDie` (abort at 2^63). -/
def deleteDictionariesByDiskCacheKeyTokens (st : StoreState)
    (tokens : List (Nat × Nat)) : Except StoreError StoreState :=
  let matchesTok : Nat × Nat → DictRecord → Bool := fun t r =>
    r.tokenHigh == t.1 && r.tokenLow == t.2
  let removed := st.dictionaries.filter (fun r => tokens.any (fun t => matchesTok t r))
  let kept := st.dictionaries.filter (fun r => !(tokens.any (fun t => matchesTok t r)))
  let deletedSize := sumSizes removed
  if (2 : Nat) ^ 63 ≤ deletedSize then
    .error .crash
  else
    let st2 : StoreState := { st with dictionaries := kept }
    if deletedSize ≠ 0 then
      match updateTotalDictionarySize st2 (-(deletedSize : Int)) with
      | .error e => .error e
      | .ok (st3, _) => .ok st3
    else
      .ok st2

/-- One client request against the store, with the arguments the claims
range over. -/
inductive StoreOp where
  | register (key : IsolationKey) (d : DictInput) (maxSizePerSite maxCountPerSite : Nat)
  | clearAll
  | clear (startTime : Int) (endTime : Option Int) (urlMatcher : Option (String → Bool))
  | deleteExpired (now : Int)
  | procEviction (cacheMaxSize sizeLowWatermark cacheMaxCount countLowWatermark : Nat)
  | deleteByTokens (tokens : List (Nat × Nat))

/-- Run one operation; any error or process abort means the transaction was
not committed, leaving the persisted state unchanged. -/
def applyOp (st : StoreState) (op : StoreOp) : StoreState :=
  match op with
  | .register key d ms mc =>
    match registerDictionary st key d ms mc with
    | some (.ok (st2, _)) => st2
    | _ => st
  | .clearAll => clearAllDictionaries st
  | .clear s e m =>
    match clearDictionaries st s e m with
    | .ok (st2, _) => st2
    | .error _ => st
  | .deleteExpired now =>
    match deleteExpiredDictionaries st now with
    | .ok (st2, _) => st2
    | .error _ => st
  | .procEviction a b c dd =>
    match processEviction st a b c dd with
    | .ok (st2, _) => st2
    | .error _ => st
  | .deleteByTokens toks =>
    match deleteDictionariesByDiskCacheKeyTokens st toks with
    | .ok st2 => st2
    | .error _ => st

def applyOps (st : StoreState) (ops : List StoreOp) : StoreState :=
  ops.foldl applyOp st

/-- The identity key of a row, unique in the table (`unique_index`). -/
def identityKey (r : DictRecord) : String × String × String × String :=
  (r.frameOrigin, r.topFrameSite, r.host, r.matchValue)

/-- The RunningTotal invariant: the persisted counter equals the sum of the
`size` column over the live rows. -/
def sizeInv (st : StoreState) : Prop :=
  st.totalDictSize = sumSizes st.dictionaries

/-- Structural facts the SQLite schema guarantees: distinct rowids, rowids
below the AUTOINCREMENT cursor, and the unique identity index. -/
def schemaInv (st : StoreState) : Prop :=
  (st.dictionaries.map DictRecord.id).Nodup ∧
    (∀ r ∈ st.dictionaries, r.id < st.nextId) ∧
    (st.dictionaries.map identityKey).Nodup

def wellFormed (st : StoreState) : Prop :=
  sizeInv st ∧ schemaInv st

/-- All stored disk-cache tokens deserialise (true of every row the store
itself writes, since live `UnguessableToken`s are never zero). -/
def tokensValid (st : StoreState) : Prop :=
  ∀ r ∈ st.dictionaries, tokenValid r = true

instance : DecidablePred sizeInv := fun st => by
  unfold sizeInv; infer_instance

instance : DecidablePred schemaInv := fun st => by
  unfold schemaInv; infer_instance

instance : DecidablePred wellFormed := fun st => by
  unfold wellFormed; infer_instance

instance : DecidablePred tokensValid := fun st => by
  unfold tokensValid; infer_instance

theorem updateTotalDictionarySize_ok {st : StoreState} {delta : Int} {st2 : StoreState} {n : Nat}
    (h : updateTotalDictionarySize st delta = .ok (st2, n)) :
    st2.dictionaries = st.dictionaries ∧ st2.nextId = st.nextId ∧
      (st2.totalDictSize : Int) = (st.totalDictSize : Int) + delta ∧
      st2.totalDictSize = n := by
  simp only [updateTotalDictionarySize] at h
  split at h
  · rename_i hcond
    cases h
    refine ⟨rfl, rfl, ?_, rfl⟩
    simpa using Int.toNat_of_nonneg hcond.1
  · cases h

end SharedDictStore

namespace SharedDictStore

/-- Claim C10: `RegisterDictionaryImpl` begins with
`CHECK_NE(0u, max_count_per_site)`: a zero per-site count budget aborts the
process (no typed error is returned), and whenever the budget is nonzero
the check passes and the implementation body runs. -/
theorem register_requires_nonzero_count (st : StoreState) (key : IsolationKey)
    (d : DictInput) (maxSizePerSite maxCountPerSite : Nat) :
    (maxCountPerSite = 0 → registerDictionary st key d maxSizePerSite maxCountPerSite = none) ∧
    (maxCountPerSite ≠ 0 →
      registerDictionary st key d maxSizePerSite maxCountPerSite =
        some (registerDictionaryImpl st key d maxSizePerSite maxCountPerSite)) := by
  constructor
  · intro h
    simp [registerDictionary, h]
  · intro h
    simp [registerDictionary, h]

/-- Witness for C10 at a concrete input. -/
theorem register_requires_nonzero_count_witness :
    ((0 : Nat) = 0 →
      registerDictionary ⟨[], 0, 1⟩ ⟨"o", "s"⟩ ⟨"h", "m", "u", 0, 1, 0, 5, 1, 0⟩ 0 0 = none) ∧
    ((1 : Nat) ≠ 0 →
      registerDictionary ⟨[], 0, 1⟩ ⟨"o", "s"⟩ ⟨"h", "m", "u", 0, 1, 0, 5, 1, 0⟩ 0 1 =
        some (registerDictionaryImpl ⟨[], 0, 1⟩ ⟨"o", "s"⟩ ⟨"h", "m", "u", 0, 1, 0, 5, 1, 0⟩ 0 1)) :=
  ⟨(register_requires_nonzero_count ⟨[], 0, 1⟩ ⟨"o", "s"⟩ ⟨"h", "m", "u", 0, 1, 0, 5, 1, 0⟩ 0 0).1,
   (register_requires_nonzero_count ⟨[], 0, 1⟩ ⟨"o", "s"⟩ ⟨"h", "m", "u", 0, 1, 0, 5, 1, 0⟩ 0 1).2⟩

/-- Claim C4: when `max_size_per_site != 0` and the new dictionary's size
exceeds it, `RegisterDictionaryImpl` returns `Error::kTooBigDictionary`
before opening a transaction (the size test is the first statement after
the CHECK); nothing is inserted and the running total is untouched, so the
state after the operation is exactly the state before. -/
theorem register_tooBigDictionary (st : StoreState) (key : IsolationKey)
    (d : DictInput) (maxSizePerSite maxCountPerSite : Nat)
    (hms : maxSizePerSite ≠ 0) (hbig : maxSizePerSite < d.size) :
    registerDictionaryImpl st key d maxSizePerSite maxCountPerSite =
        .error .kTooBigDictionary ∧
      applyOp st (.register key d maxSizePerSite maxCountPerSite) = st := by
  have himpl : registerDictionaryImpl st key d maxSizePerSite maxCountPerSite =
      .error .kTooBigDictionary := by
    unfold registerDictionaryImpl
    rw [if_pos ⟨hms, hbig⟩]
  refine ⟨himpl, ?_⟩
  simp only [applyOp, registerDictionary]
  split
  · rename_i st2 snd heq
    rw [himpl] at heq
    split at heq <;> simp_all
  · rfl

/-- Witness for C4: `max_size_per_site = 400`, dictionary size 500. -/
theorem register_tooBigDictionary_witness :
    ((400 : Nat) ≠ 0 ∧ (400 : Nat) < 500) ∧
      (registerDictionaryImpl ⟨[], 0, 1⟩ ⟨"o", "s"⟩ ⟨"h", "m", "u", 0, 1, 0, 500, 1, 0⟩ 400 1 =
          .error .kTooBigDictionary ∧
        applyOp ⟨[], 0, 1⟩ (.register ⟨"o", "s"⟩ ⟨"h", "m", "u", 0, 1, 0, 500, 1, 0⟩ 400 1) =
          ⟨[], 0, 1⟩) :=
  ⟨by decide,
   register_tooBigDictionary ⟨[], 0, 1⟩ ⟨"o", "s"⟩ ⟨"h", "m", "u", 0, 1, 0, 500, 1, 0⟩ 400 1
     (by decide) (by decide)⟩

/-- Claim C5 (amended): the delta applied to the running total is the new
size minus the replaced row's size when an identity match exists and the
new size otherwise; re-registering the identical identity with identical
size computes `size_delta == 0`; and when the per-site eviction removes
nothing, the committed running total is exactly the old total plus that
delta (so it is unchanged in the identical re-registration case).  When the
per-site eviction does remove victims the total additionally drops by their
sizes, which is what the counterexample exhibits. -/
theorem register_sizeDelta (st : StoreState) (key : IsolationKey) (d : DictInput)
    (maxSizePerSite maxCountPerSite : Nat) (st2 : StoreState) (res : RegisterDictionaryResult)
    (h : registerDictionaryImpl st key d maxSizePerSite maxCountPerSite = .ok (st2, res))
    (hnoev : res.evictedTokens = []) :
    (st2.totalDictSize : Int) = (st.totalDictSize : Int) + computeSizeDelta st key d ∧
      (∀ old, getExistingDictionary st key d.host d.matchValue = some old →
        old.size = d.size → computeSizeDelta st key d = 0) := by
  constructor
  · unfold registerDictionaryImpl at h
    split at h
    · cases h
    · cases hupd : updateTotalDictionarySize (registerInsertState st key d)
          (computeSizeDelta st key d) with
      | error e => rw [hupd] at h; cases h
      | ok p =>
        obtain ⟨stA, n⟩ := p
        rw [hupd] at h
        dsimp only at h
        cases hev : maybeEvictDictionariesForPerSiteLimit stA key.topFrameSite
            maxSizePerSite maxCountPerSite with
        | error e => rw [hev] at h; cases h
        | ok q =>
          obtain ⟨stB, victims⟩ := q
          rw [hev] at h
          cases h
          have hvnil : victims = [] := by
            simpa using hnoev
          subst hvnil
          unfold maybeEvictDictionariesForPerSiteLimit at hev
          cases hsel : selectCandidatesForPerSiteEviction stA key.topFrameSite
              maxSizePerSite maxCountPerSite with
          | error e => rw [hsel] at hev; cases hev
          | ok q2 =>
            obtain ⟨vs, candSize⟩ := q2
            rw [hsel] at hev
            dsimp only at hev
            split at hev
            · cases hev
              have := updateTotalDictionarySize_ok hupd
              exact this.2.2.1
            · cases hupd2 : updateTotalDictionarySize
                  { stA with dictionaries := deleteRowsByPrimaryKeys stA.dictionaries vs }
                  (-(candSize : Int)) with
              | error e => rw [hupd2] at hev; cases hev
              | ok p2 =>
                obtain ⟨stC, n2⟩ := p2
                rw [hupd2] at hev
                cases hev
                rename_i hvs
                exact absurd rfl hvs
  · intro old hold hsize
    unfold computeSizeDelta
    rw [hold]
    dsimp only
    rw [hsize]
    omega

/-- A store holding a row with identity ("o","s","h","m") of size 10 plus a
second row of size 7 on the same site. -/
def rC5a : DictRecord := ⟨1, "o", "s", "h", "m", "u", 0, 100, 1, 10, 1, 0⟩

def rC5b : DictRecord := ⟨2, "o", "s", "h2", "m2", "u2", 0, 100, 2, 7, 2, 0⟩

def stC5 : StoreState := ⟨[rC5a, rC5b], 17, 3⟩

/-- A re-registration of the identical identity ("o","s","h","m") with the
identical size 10. -/
def dC5 : DictInput := ⟨"h", "m", "u", 0, 100, 5, 10, 3, 0⟩

def keyC5 : IsolationKey := ⟨"o", "s"⟩

def rC5new : DictRecord := ⟨3, "o", "s", "h", "m", "u", 0, 100, 5, 10, 3, 0⟩

def stC5out : StoreState := ⟨[rC5new], 10, 4⟩

def resC5out : RegisterDictionaryResult := ⟨3, some (1, 0), [(2, 0)], 10, 1⟩

/-- Counterexample to C5 as stated: re-registering the identical identity
key with identical size (so `size_delta == 0`) does NOT always leave the
running total unchanged after the commit — with `max_count_per_site = 1`
the per-site eviction triggered by the same call removes the other row of
the site and the committed total drops from 17 to 10. -/
theorem register_sizeDelta_counterexample :
    getExistingDictionary stC5 keyC5 dC5.host dC5.matchValue = some rC5a ∧
      rC5a.size = dC5.size ∧
      registerDictionaryImpl stC5 keyC5 dC5 0 1 = .ok (stC5out, resC5out) ∧
      stC5out.totalDictSize ≠ stC5.totalDictSize :=
  ⟨rfl, rfl, rfl, by decide⟩

def stW5 : StoreState := ⟨[], 0, 1⟩

def stW5out : StoreState := ⟨[⟨1, "o", "s", "h", "m", "u", 0, 100, 5, 10, 3, 0⟩], 10, 2⟩

def resW5out : RegisterDictionaryResult := ⟨1, none, [], 10, 1⟩

/-- Witness for the amended C5 at a concrete successful registration with
an empty eviction set. -/
theorem register_sizeDelta_witness :
    registerDictionaryImpl stW5 keyC5 dC5 0 1 = .ok (stW5out, resW5out) ∧
      resW5out.evictedTokens = [] ∧
      ((stW5out.totalDictSize : Int) =
          (stW5.totalDictSize : Int) + computeSizeDelta stW5 keyC5 dC5 ∧
        ∀ old, getExistingDictionary stW5 keyC5 dC5.host dC5.matchValue = some old →
          old.size = dC5.size → computeSizeDelta stW5 keyC5 dC5 = 0) :=
  ⟨rfl, rfl, register_sizeDelta stW5 keyC5 dC5 0 1 stW5out resW5out rfl rfl⟩

theorem sumSizes_nil : sumSizes [] = 0 := rfl

theorem sumSizes_cons (r : DictRecord) (l : List DictRecord) :
    sumSizes (r :: l) = r.size + sumSizes l := by
  simp [sumSizes]

theorem sumSizes_append (l1 l2 : List DictRecord) :
    sumSizes (l1 ++ l2) = sumSizes l1 + sumSizes l2 := by
  simp [sumSizes]

theorem sumSizes_perm {l1 l2 : List DictRecord} (h : List.Perm l1 l2) :
    sumSizes l1 = sumSizes l2 :=
  (h.map DictRecord.size).sum_eq

theorem sumSizes_filter_add (p : DictRecord → Bool) (l : List DictRecord) :
    sumSizes (l.filter p) + sumSizes (l.filter (fun r => !(p r))) = sumSizes l := by
  induction l with
  | nil => rfl
  | cons a l ih =>
    by_cases h : p a = true
    · simp [List.filter_cons, h, sumSizes_cons]
      omega
    · have h2 : p a = false := by simpa using h
      simp [List.filter_cons, h2, sumSizes_cons]
      omega

theorem length_filter_add (p : DictRecord → Bool) (l : List DictRecord) :
    (l.filter p).length + (l.filter (fun r => !(p r))).length = l.length := by
  induction l with
  | nil => rfl
  | cons a l ih =>
    by_cases h : p a = true
    · simp [List.filter_cons, h]
      omega
    · have h2 : p a = false := by simpa using h
      simp [List.filter_cons, h2]
      omega

/-- Deleting a row that is present, by its primary key: with distinct row
ids the filter removes exactly that row. -/
theorem filter_ne_id_spec {rows : List DictRecord} {v : DictRecord}
    (hnd : (rows.map DictRecord.id).Nodup) (hv : v ∈ rows) :
    sumSizes (rows.filter (fun r => r.id != v.id)) + v.size = sumSizes rows ∧
      (rows.filter (fun r => r.id != v.id)).length + 1 = rows.length := by
  induction rows with
  | nil => cases hv
  | cons a rest ih =>
    have hnd' : (rest.map DictRecord.id).Nodup := (List.nodup_cons.mp hnd).2
    have hnotin : a.id ∉ rest.map DictRecord.id := (List.nodup_cons.mp hnd).1
    rcases List.mem_cons.mp hv with rfl | hvrest
    · have hall : rest.filter (fun r => r.id != v.id) = rest := by
        apply List.filter_eq_self.mpr
        intro w hw
        have : w.id ∈ rest.map DictRecord.id := List.mem_map_of_mem _ hw
        simp only [bne_iff_ne, ne_eq, decide_eq_true_eq]
        intro hEq
        exact hnotin (hEq ▸ this)
      simp [List.filter_cons, hall, sumSizes_cons]
      omega
    · have haid : a.id ≠ v.id := by
        intro hEq
        exact hnotin (hEq ▸ List.mem_map_of_mem _ hvrest)
      have hkeep : (a.id != v.id) = true := by simpa using haid
      obtain ⟨ihs, ihl⟩ := ih hnd' hvrest
      simp [List.filter_cons, hkeep, sumSizes_cons]
      constructor
      · omega
      · omega

theorem mem_filter_ne_id {rows : List DictRecord} {v w : DictRecord}
    (hw : w ∈ rows) (hne : w.id ≠ v.id) :
    w ∈ rows.filter (fun r => r.id != v.id) := by
  refine List.mem_filter.mpr ⟨hw, ?_⟩
  simpa using hne

/-- Bookkeeping for the per-key deletion loops: with distinct row ids,
deleting a duplicate-free list of present victims removes exactly those
rows. -/
theorem deleteRowsByPrimaryKeys_spec :
    ∀ (victims rows : List DictRecord),
      (rows.map DictRecord.id).Nodup →
      (victims.map DictRecord.id).Nodup →
      (∀ v ∈ victims, v ∈ rows) →
      sumSizes (deleteRowsByPrimaryKeys rows victims) + sumSizes victims = sumSizes rows ∧
        (deleteRowsByPrimaryKeys rows victims).length + victims.length = rows.length ∧
        List.Sublist (deleteRowsByPrimaryKeys rows victims) rows := by
  intro victims
  induction victims with
  | nil =>
    intro rows _ _ _
    refine ⟨by simp [deleteRowsByPrimaryKeys, sumSizes_nil], by simp [deleteRowsByPrimaryKeys], ?_⟩
    simp [deleteRowsByPrimaryKeys]
  | cons v vs ih =>
    intro rows hnd hvnd hmem
    have hvrows : v ∈ rows := hmem v (List.mem_cons_self _ _)
    have step := filter_ne_id_spec hnd hvrows
    have hsub1 : List.Sublist (rows.filter (fun r => r.id != v.id)) rows :=
      List.filter_sublist _
    have hnd1 : ((rows.filter (fun r => r.id != v.id)).map DictRecord.id).Nodup :=
      List.Nodup.sublist (hsub1.map DictRecord.id) hnd
    have hvnd' : (vs.map DictRecord.id).Nodup := (List.nodup_cons.mp hvnd).2
    have hvid : v.id ∉ vs.map DictRecord.id := (List.nodup_cons.mp hvnd).1
    have hmem' : ∀ w ∈ vs, w ∈ rows.filter (fun r => r.id != v.id) := by
      intro w hw
      refine mem_filter_ne_id (hmem w (List.mem_cons_of_mem _ hw)) ?_
      intro hEq
      exact hvid (hEq ▸ List.mem_map_of_mem _ hw)
    obtain ⟨ihs, ihl, ihsub⟩ := ih (rows.filter (fun r => r.id != v.id)) hnd1 hvnd' hmem'
    have hunf : deleteRowsByPrimaryKeys rows (v :: vs) =
        deleteRowsByPrimaryKeys (rows.filter (fun r => r.id != v.id)) vs := by
      simp [deleteRowsByPrimaryKeys]
    rw [hunf]
    refine ⟨?_, ?_, ihsub.trans hsub1⟩
    · rw [sumSizes_cons]
      omega
    · simp only [List.length_cons]
      omega

theorem selectEvictionLoop_nil (cms lw tr running removed lastOut : Nat) :
    selectEvictionLoop cms lw tr [] running removed lastOut = .ok ([], lastOut) := rfl

theorem selectEvictionLoop_cons_skip {r : DictRecord} (cms lw tr : Nat)
    (rest : List DictRecord) (running removed lastOut : Nat)
    (h : tokenValid r = false) :
    selectEvictionLoop cms lw tr (r :: rest) running removed lastOut =
      selectEvictionLoop cms lw tr rest running removed lastOut := by
  simp [selectEvictionLoop, h]

theorem selectEvictionLoop_cons_stop {r : DictRecord} (cms lw tr : Nat)
    (rest : List DictRecord) (running removed lastOut : Nat)
    (htok : tokenValid r = true) (hge : ¬ running < r.size)
    (hcrash : ¬ (2 : Nat) ^ 63 ≤ running - r.size)
    (hstop : (cms = 0 ∨ running - r.size ≤ lw) ∧ tr ≤ removed + 1) :
    selectEvictionLoop cms lw tr (r :: rest) running removed lastOut =
      .ok ([r], running - r.size) := by
  simp only [selectEvictionLoop, htok, Bool.not_true, Bool.false_eq_true, if_false,
    if_neg hge, if_neg hcrash, if_pos hstop]

theorem selectEvictionLoop_cons_go {r : DictRecord} (cms lw tr : Nat)
    (rest : List DictRecord) (running removed lastOut : Nat)
    (htok : tokenValid r = true) (hge : ¬ running < r.size)
    (hcrash : ¬ (2 : Nat) ^ 63 ≤ running - r.size)
    (hnostop : ¬ ((cms = 0 ∨ running - r.size ≤ lw) ∧ tr ≤ removed + 1)) :
    selectEvictionLoop cms lw tr (r :: rest) running removed lastOut =
      match selectEvictionLoop cms lw tr rest (running - r.size) (removed + 1) (running - r.size) with
      | .error e => .error e
      | .ok (vs, out) => .ok (r :: vs, out) := by
  simp only [selectEvictionLoop, htok, Bool.not_true, Bool.false_eq_true, if_false,
    if_neg hge, if_neg hcrash, if_neg hnostop]

/-- The stop condition the scan of `SelectEvictionCandidates` tests after
removing the `k`-th candidate, phrased over a prefix of the ordered rows. -/
def evictStopCond (cms lw tr running removed : Nat) (rows : List DictRecord) (k : Nat) : Prop :=
  (cms = 0 ∨ running - sumSizes (rows.take k) ≤ lw) ∧ tr ≤ removed + k

instance evictStopCond.instDecidable (cms lw tr running removed : Nat)
    (rows : List DictRecord) (k : Nat) :
    Decidable (evictStopCond cms lw tr running removed rows k) := by
  unfold evictStopCond; infer_instance

theorem evictStopCond_cons (cms lw tr running removed : Nat) (r : DictRecord)
    (rest : List DictRecord) (j : Nat) :
    evictStopCond cms lw tr running removed (r :: rest) (j + 1) ↔
      evictStopCond cms lw tr (running - r.size) (removed + 1) rest j := by
  unfold evictStopCond
  rw [List.take_succ_cons, sumSizes_cons]
  omega

/-- Characterization of the global eviction scan when every token is valid
and the running total covers the listed sizes: the victims are the shortest
nonempty prefix satisfying the stop condition (all rows when no prefix
does), and the reported remaining size is the running total minus the
victims' sizes. -/
theorem selectEvictionLoop_char (cms lw tr : Nat) :
    ∀ (rows : List DictRecord) (running removed lastOut : Nat),
      (∀ r ∈ rows, tokenValid r = true) →
      sumSizes rows ≤ running → running < 2 ^ 63 →
      ∃ k, k ≤ rows.length ∧
        selectEvictionLoop cms lw tr rows running removed lastOut =
          .ok (rows.take k, if k = 0 then lastOut else running - sumSizes (rows.take k)) ∧
        (k = 0 ↔ rows = []) ∧
        (evictStopCond cms lw tr running removed rows k ∨ k = rows.length) ∧
        ∀ j, 1 ≤ j → j < k → ¬ evictStopCond cms lw tr running removed rows j := by
  intro rows
  induction rows with
  | nil =>
    intro running removed lastOut _ _ _
    exact ⟨0, Nat.le_refl 0, by simp [selectEvictionLoop_nil], by simp, Or.inr rfl,
      fun j h1 h2 => absurd h2 (by omega)⟩
  | cons r rest ih =>
    intro running removed lastOut htok hsum hlt
    have htokr : tokenValid r = true := htok r (List.mem_cons_self _ _)
    have hsum' : r.size + sumSizes rest ≤ running := by
      rw [← sumSizes_cons]; exact hsum
    have hge : ¬ running < r.size := by omega
    have hcrash : ¬ (2 : Nat) ^ 63 ≤ running - r.size := by omega
    have htake1 : sumSizes ((r :: rest).take 1) = r.size := by
      simp [sumSizes_cons, sumSizes_nil]
    by_cases hb : (cms = 0 ∨ running - r.size ≤ lw) ∧ tr ≤ removed + 1
    · refine ⟨1, by simp, ?_, by simp, Or.inl ?_, fun j h1 h2 => absurd h2 (by omega)⟩
      · rw [selectEvictionLoop_cons_stop cms lw tr rest running removed lastOut htokr hge hcrash hb]
        rw [List.take_succ_cons, List.take_zero, if_neg Nat.one_ne_zero,
          sumSizes_cons, sumSizes_nil]
        simp
      · unfold evictStopCond
        rw [htake1]
        exact ⟨hb.1, hb.2⟩
    · obtain ⟨k', hk'le, hk'eq, hk'iff, hk'disj, hk'min⟩ :=
        ih (running - r.size) (removed + 1) (running - r.size)
          (fun x hx => htok x (List.mem_cons_of_mem _ hx)) (by omega) (by omega)
      refine ⟨k' + 1, by simpa using Nat.succ_le_succ hk'le, ?_, by simp, ?_, ?_⟩
      · rw [selectEvictionLoop_cons_go cms lw tr rest running removed lastOut htokr hge hcrash hb,
          hk'eq]
        dsimp only
        rw [List.take_succ_cons, sumSizes_cons, if_neg (Nat.succ_ne_zero k')]
        by_cases hk0 : k' = 0
        · subst hk0
          simp [sumSizes_nil]
        · rw [if_neg hk0]
          have harith : running - r.size - sumSizes (List.take k' rest) =
              running - (r.size + sumSizes (List.take k' rest)) := by omega
          rw [harith]
      · rcases hk'disj with h | h
        · exact Or.inl ((evictStopCond_cons cms lw tr running removed r rest k').mpr h)
        · exact Or.inr (by simp [h])
      · intro j h1 hj
        obtain ⟨j', rfl⟩ : ∃ j', j = j' + 1 := ⟨j - 1, by omega⟩
        rw [evictStopCond_cons]
        by_cases hj0 : j' = 0
        · subst hj0
          intro hc
          have hc1 : cms = 0 ∨ running - r.size ≤ lw := by
            simpa [sumSizes_nil] using hc.1
          have hc2 : tr ≤ removed + 1 := by
            have := hc.2
            omega
          exact hb ⟨hc1, hc2⟩
        · exact hk'min j' (by omega) (by omega)

/-- Claim C1 (amended): for a well-formed store, if
`(cache_max_size == 0 or total <= cache_max_size) and count <= cache_max_count`
the selector returns an empty victim set; otherwise the victim list is the
shortest NONEMPTY prefix of the rows in ascending last-used order whose
removal satisfies both the size-watermark and count-watermark conditions
(the loop checks the stop condition only after removing at least one row,
which is what the counterexample exploits), together with the exactly
recomputed remaining size. -/
theorem selectEvictionCandidates_spec (st : StoreState) (cms lw cmc clw : Nat)
    (hinv : sizeInv st) (htok : tokensValid st)
    (hbound : st.totalDictSize < 2 ^ 63) :
    (((cms = 0 ∨ st.totalDictSize ≤ cms) ∧ st.dictionaries.length ≤ cmc) →
      selectEvictionCandidates st cms lw cmc clw = .ok ([], 0)) ∧
    (¬ ((cms = 0 ∨ st.totalDictSize ≤ cms) ∧ st.dictionaries.length ≤ cmc) →
      ∃ k, 1 ≤ k ∧ k ≤ st.dictionaries.length ∧
        selectEvictionCandidates st cms lw cmc clw =
          .ok ((sortByLastUsedTime st.dictionaries).take k,
            st.totalDictSize - sumSizes ((sortByLastUsedTime st.dictionaries).take k)) ∧
        evictStopCond cms lw (st.dictionaries.length - clw) st.totalDictSize 0
          (sortByLastUsedTime st.dictionaries) k ∧
        ∀ j, 1 ≤ j → j < k →
          ¬ evictStopCond cms lw (st.dictionaries.length - clw) st.totalDictSize 0
            (sortByLastUsedTime st.dictionaries) j) := by
  have hperm := sortByLastUsedTime_perm st.dictionaries
  constructor
  · intro h
    simp only [selectEvictionCandidates]
    rw [if_pos h]
  · intro h
    have hsorttok : ∀ r ∈ sortByLastUsedTime st.dictionaries, tokenValid r = true :=
      fun r hr => htok r (hperm.mem_iff.mp hr)
    have hsortsum : sumSizes (sortByLastUsedTime st.dictionaries) = st.totalDictSize := by
      rw [sumSizes_perm hperm, hinv]
    obtain ⟨k, hkle, hkeq, hkiff, hkdisj, hkmin⟩ :=
      selectEvictionLoop_char cms lw
        (if clw < st.dictionaries.length then st.dictionaries.length - clw else 0)
        (sortByLastUsedTime st.dictionaries) st.totalDictSize 0 0 hsorttok
        (le_of_eq hsortsum) hbound
    have htr : (if clw < st.dictionaries.length then st.dictionaries.length - clw else 0) =
        st.dictionaries.length - clw := by
      split <;> omega
    have hlen : (sortByLastUsedTime st.dictionaries).length = st.dictionaries.length :=
      hperm.length_eq
    have hk0 : k ≠ 0 := by
      intro hk
      have hnil : sortByLastUsedTime st.dictionaries = [] := hkiff.mp hk
      have hdnil : st.dictionaries = [] := by
        have := hperm
        rw [hnil] at this
        exact (List.Perm.nil_eq this).symm
      apply h
      constructor
      · right
        rw [hinv, hdnil]
        simp [sumSizes_nil]
      · rw [hdnil]
        simp
    refine ⟨k, by omega, by omega, ?_, ?_, ?_⟩
    · simp only [selectEvictionCandidates]
      rw [if_neg h, hkeq, if_neg hk0]
    · rw [htr] at hkdisj
      rcases hkdisj with hstop | hkfull
      · exact hstop
      · unfold evictStopCond
        constructor
        · right
          rw [hkfull, List.take_length, hsortsum]
          omega
        · omega
    · intro j h1 hj
      have := hkmin j h1 hj
      rw [htr] at this
      exact this

def rC1a : DictRecord := ⟨1, "o", "s", "h", "m", "u", 0, 100, 1, 1, 1, 0⟩

def rC1b : DictRecord := ⟨2, "o", "s", "h2", "m2", "u2", 0, 100, 2, 1, 2, 0⟩

def stC1 : StoreState := ⟨[rC1a, rC1b], 2, 3⟩

/-- Counterexample to C1 as stated: with budgets
`cache_max_size = 0, size_low_watermark = 0, cache_max_count = 1,
count_low_watermark = 5` on a well-formed two-row store, the fast-path test
fails (count 2 > max 1), yet the claim's stop condition already holds for
the EMPTY prefix (size is unconstrained and `removed 0 >= 2 - 5`), so the
shortest prefix satisfying the claim's condition is empty — but the scan
removes (and returns) the least-recently-used row, because the code only
tests the stop condition after removing a row. -/
theorem selectEvictionCandidates_counterexample :
    (¬ (((0 : Nat) = 0 ∨ stC1.totalDictSize ≤ 0) ∧ stC1.dictionaries.length ≤ 1)) ∧
      selectEvictionCandidates stC1 0 0 1 5 = .ok ([rC1a], 1) ∧
      evictStopCond 0 0 (stC1.dictionaries.length - 5) stC1.totalDictSize 0
        (sortByLastUsedTime stC1.dictionaries) 0 ∧
      (sortByLastUsedTime stC1.dictionaries).take 0 ≠ [rC1a] :=
  ⟨by decide, rfl, by decide, by decide⟩

def stC1w : StoreState :=
  ⟨[⟨1, "o", "s", "h", "m", "u", 0, 100, 1, 5, 1, 0⟩,
    ⟨2, "o", "s", "h2", "m2", "u2", 0, 100, 2, 5, 2, 0⟩], 10, 3⟩

/-- Witness for the amended C1 at a concrete well-formed store and budgets
that trigger a scan. -/
theorem selectEvictionCandidates_spec_witness :
    (sizeInv stC1w ∧ tokensValid stC1w ∧ stC1w.totalDictSize < 2 ^ 63) ∧
      ((((6 : Nat) = 0 ∨ stC1w.totalDictSize ≤ 6) ∧ stC1w.dictionaries.length ≤ 5) →
        selectEvictionCandidates stC1w 6 6 5 5 = .ok ([], 0)) ∧
      (¬ (((6 : Nat) = 0 ∨ stC1w.totalDictSize ≤ 6) ∧ stC1w.dictionaries.length ≤ 5) →
        ∃ k, 1 ≤ k ∧ k ≤ stC1w.dictionaries.length ∧
          selectEvictionCandidates stC1w 6 6 5 5 =
            .ok ((sortByLastUsedTime stC1w.dictionaries).take k,
              stC1w.totalDictSize - sumSizes ((sortByLastUsedTime stC1w.dictionaries).take k)) ∧
          evictStopCond 6 6 (stC1w.dictionaries.length - 5) stC1w.totalDictSize 0
            (sortByLastUsedTime stC1w.dictionaries) k ∧
          ∀ j, 1 ≤ j → j < k →
            ¬ evictStopCond 6 6 (stC1w.dictionaries.length - 5) stC1w.totalDictSize 0
              (sortByLastUsedTime stC1w.dictionaries) j) :=
  ⟨⟨by decide, by decide, by decide⟩,
   selectEvictionCandidates_spec stC1w 6 6 5 5 (by decide) (by decide) (by decide)⟩

theorem selectCandidatesLoop_nil (tbs tbc accSize accCount : Nat) :
    selectCandidatesLoop tbs tbc [] accSize accCount = .ok ([], accSize) := rfl

theorem selectCandidatesLoop_cons_skip {r : DictRecord} (tbs tbc : Nat)
    (rest : List DictRecord) (accSize accCount : Nat) (htok : tokenValid r = false) :
    selectCandidatesLoop tbs tbc (r :: rest) accSize accCount =
      selectCandidatesLoop tbs tbc rest accSize accCount := by
  simp [selectCandidatesLoop, htok]

theorem selectCandidatesLoop_cons_crash {r : DictRecord} (tbs tbc : Nat)
    (rest : List DictRecord) (accSize accCount : Nat) (htok : tokenValid r = true)
    (hcrash : (2 : Nat) ^ 63 ≤ accSize + r.size) :
    selectCandidatesLoop tbs tbc (r :: rest) accSize accCount =
      .error .kInvalidTotalDictSize := by
  simp only [selectCandidatesLoop, htok, Bool.not_true, Bool.false_eq_true, if_false,
    if_pos hcrash]

theorem selectCandidatesLoop_cons_stop {r : DictRecord} (tbs tbc : Nat)
    (rest : List DictRecord) (accSize accCount : Nat) (htok : tokenValid r = true)
    (hcrash : ¬ (2 : Nat) ^ 63 ≤ accSize + r.size)
    (hstop : tbs ≤ accSize + r.size ∧ tbc ≤ accCount + 1) :
    selectCandidatesLoop tbs tbc (r :: rest) accSize accCount =
      .ok ([r], accSize + r.size) := by
  simp only [selectCandidatesLoop, htok, Bool.not_true, Bool.false_eq_true, if_false,
    if_neg hcrash, if_pos hstop]

theorem selectCandidatesLoop_cons_go {r : DictRecord} (tbs tbc : Nat)
    (rest : List DictRecord) (accSize accCount : Nat) (htok : tokenValid r = true)
    (hcrash : ¬ (2 : Nat) ^ 63 ≤ accSize + r.size)
    (hnostop : ¬ (tbs ≤ accSize + r.size ∧ tbc ≤ accCount + 1)) :
    selectCandidatesLoop tbs tbc (r :: rest) accSize accCount =
      match selectCandidatesLoop tbs tbc rest (accSize + r.size) (accCount + 1) with
      | .error e => .error e
      | .ok (vs, s) => .ok (r :: vs, s) := by
  simp only [selectCandidatesLoop, htok, Bool.not_true, Bool.false_eq_true, if_false,
    if_neg hcrash, if_neg hnostop]

/-- Post-condition of the per-site eviction scan with valid tokens: the
victims form a sublist of the scanned rows, the accumulated candidate size
is exactly their total size, and either the break condition was reached or
every row was consumed. -/
theorem selectCandidatesLoop_post (tbs tbc : Nat) :
    ∀ (rows : List DictRecord) (accSize accCount : Nat) (vs : List DictRecord) (out : Nat),
      (∀ r ∈ rows, tokenValid r = true) →
      selectCandidatesLoop tbs tbc rows accSize accCount = .ok (vs, out) →
      List.Sublist vs rows ∧ out = accSize + sumSizes vs ∧
        ((tbs ≤ out ∧ tbc ≤ accCount + vs.length) ∨ vs = rows) := by
  intro rows
  induction rows with
  | nil =>
    intro accSize accCount vs out _ h
    rw [selectCandidatesLoop_nil] at h
    cases h
    exact ⟨List.Sublist.refl _, by simp [sumSizes_nil], Or.inr rfl⟩
  | cons r rest ih =>
    intro accSize accCount vs out htok h
    have htokr : tokenValid r = true := htok r (List.mem_cons_self _ _)
    by_cases hcrash : (2 : Nat) ^ 63 ≤ accSize + r.size
    · rw [selectCandidatesLoop_cons_crash tbs tbc rest accSize accCount htokr hcrash] at h
      cases h
    · by_cases hstop : tbs ≤ accSize + r.size ∧ tbc ≤ accCount + 1
      · rw [selectCandidatesLoop_cons_stop tbs tbc rest accSize accCount htokr hcrash hstop] at h
        cases h
        refine ⟨(List.nil_sublist rest).cons₂ r, by simp [sumSizes_cons, sumSizes_nil], Or.inl ?_⟩
        simpa using hstop
      · rw [selectCandidatesLoop_cons_go tbs tbc rest accSize accCount htokr hcrash hstop] at h
        cases hrec : selectCandidatesLoop tbs tbc rest (accSize + r.size) (accCount + 1) with
        | error e => rw [hrec] at h; cases h
        | ok p =>
          obtain ⟨vs', out'⟩ := p
          rw [hrec] at h
          dsimp only at h
          cases h
          obtain ⟨ihsub, ihout, ihdisj⟩ :=
            ih (accSize + r.size) (accCount + 1) _ _
              (fun x hx => htok x (List.mem_cons_of_mem _ hx)) hrec
          refine ⟨ihsub.cons₂ r, by rw [sumSizes_cons]; omega, ?_⟩
          rcases ihdisj with ⟨h1, h2⟩ | hfull
          · exact Or.inl ⟨h1, by simp only [List.length_cons]; omega⟩
          · exact Or.inr (by rw [hfull])

/-- Deleting rows by primary key commutes with any row filter. -/
theorem deleteRowsByPrimaryKeys_filter_comm (p : DictRecord → Bool) :
    ∀ (victims rows : List DictRecord),
      (deleteRowsByPrimaryKeys rows victims).filter p =
        deleteRowsByPrimaryKeys (rows.filter p) victims := by
  intro victims
  induction victims with
  | nil => intro rows; simp [deleteRowsByPrimaryKeys]
  | cons v vs ih =>
    intro rows
    have hunf : ∀ rs, deleteRowsByPrimaryKeys rs (v :: vs) =
        deleteRowsByPrimaryKeys (rs.filter (fun r => r.id != v.id)) vs := by
      intro rs; simp [deleteRowsByPrimaryKeys]
    rw [hunf, hunf, ih]
    congr 1
    rw [List.filter_filter, List.filter_filter]
    congr 1
    funext r
    rw [Bool.and_comm]

/-- Post-condition of `SelectCandidatesForPerSiteEviction` on a store whose
tokens are all valid: the victims are drawn (in order) from the site's rows
sorted by last-used time, the reported candidate size is their total size,
and either enough was selected to bring the site back under both budgets or
every site row was selected. -/
theorem selectCandidatesForPerSiteEviction_post (stA : StoreState) (site : String)
    (ms mc : Nat) (vs : List DictRecord) (candSize : Nat)
    (htokA : ∀ r ∈ stA.dictionaries, tokenValid r = true)
    (hsel : selectCandidatesForPerSiteEviction stA site ms mc = .ok (vs, candSize)) :
    List.Sublist vs
        (sortByLastUsedTime (stA.dictionaries.filter (fun r => r.topFrameSite == site))) ∧
      candSize = sumSizes vs ∧
      ((getDictionaryCountPerSite stA site - mc ≤ vs.length ∧
          (ms ≠ 0 → getDictionarySizePerSite stA site - ms ≤ sumSizes vs)) ∨
        vs = sortByLastUsedTime (stA.dictionaries.filter (fun r => r.topFrameSite == site))) := by
  simp only [selectCandidatesForPerSiteEviction] at hsel
  split at hsel
  · rename_i hfast
    cases hsel
    refine ⟨List.nil_sublist _, by simp [sumSizes_nil], Or.inl ⟨by omega, ?_⟩⟩
    intro hms
    rcases hfast.1 with h0 | hle
    · exact absurd h0 hms
    · simp [sumSizes_nil]
      omega
  · rename_i hslow
    have htoksort : ∀ r ∈ sortByLastUsedTime
        (stA.dictionaries.filter (fun r => r.topFrameSite == site)), tokenValid r = true := by
      intro r hr
      have hmem := (sortByLastUsedTime_perm _).mem_iff.mp hr
      exact htokA r (List.mem_of_mem_filter hmem)
    obtain ⟨hsub, hout, hdisj⟩ := selectCandidatesLoop_post _ _ _ 0 0 vs candSize htoksort hsel
    refine ⟨hsub, by simpa using hout, ?_⟩
    rcases hdisj with ⟨h1, h2⟩ | hfull
    · refine Or.inl ⟨?_, ?_⟩
      · split at h2 <;> omega
      · intro hms
        split at h1
        · rename_i hcond
          omega
        · rename_i hcond
          rw [not_and_or] at hcond
          rcases hcond with hc | hc
          · exact absurd hms (by simpa using hc)
          · omega
    · exact Or.inr hfull

theorem tokenValid_newRecord (st : StoreState) (key : IsolationKey) (d : DictInput) :
    tokenValid (newRecord st key d) = d.hasValidToken := rfl

/-- `MaybeEvictDictionariesForPerSiteLimit` restores both per-site budgets
(on a store with valid tokens and distinct row ids). -/
theorem maybeEvict_perSiteLimits (stA : StoreState) (site : String) (ms mc : Nat)
    (stB : StoreState) (victims : List DictRecord)
    (htok1 : ∀ r ∈ stA.dictionaries, tokenValid r = true)
    (hnd1 : (stA.dictionaries.map DictRecord.id).Nodup)
    (hev : maybeEvictDictionariesForPerSiteLimit stA site ms mc = .ok (stB, victims)) :
    getDictionaryCountPerSite stB site ≤ mc ∧
      (ms ≠ 0 → getDictionarySizePerSite stB site ≤ ms) := by
  unfold maybeEvictDictionariesForPerSiteLimit at hev
  cases hsel : selectCandidatesForPerSiteEviction stA site ms mc with
  | error e => rw [hsel] at hev; cases hev
  | ok q2 =>
    obtain ⟨vs, candSize⟩ := q2
    rw [hsel] at hev
    dsimp only at hev
    obtain ⟨hsub, hcand, hdisj⟩ :=
      selectCandidatesForPerSiteEviction_post stA site ms mc vs candSize htok1 hsel
    have hpermSite := sortByLastUsedTime_perm
      (stA.dictionaries.filter (fun r => r.topFrameSite == site))
    split at hev
    · rename_i hvnil
      rw [Except.ok.injEq, Prod.mk.injEq] at hev
      obtain ⟨hst, hvict⟩ := hev
      subst hvnil
      rw [← hst]
      rcases hdisj with ⟨hc, hs⟩ | hfull
      · simp only [List.length_nil] at hc
        constructor
        · omega
        · intro hms
          have := hs hms
          simp only [sumSizes_nil] at this
          omega
      · have hsnil : stA.dictionaries.filter (fun r => r.topFrameSite == site) = [] := by
          have hp := hpermSite
          rw [← hfull] at hp
          exact (List.Perm.nil_eq hp).symm
        constructor
        · show (stA.dictionaries.filter (fun r => r.topFrameSite == site)).length ≤ mc
          rw [hsnil]
          simp
        · intro _
          show sumSizes (stA.dictionaries.filter (fun r => r.topFrameSite == site)) ≤ ms
          rw [hsnil]
          simp [sumSizes_nil]
    · rename_i hvne
      cases hupd2 : updateTotalDictionarySize
          { stA with dictionaries := deleteRowsByPrimaryKeys stA.dictionaries vs }
          (-(candSize : Int)) with
      | error e => rw [hupd2] at hev; cases hev
      | ok p2 =>
        obtain ⟨stC, n2⟩ := p2
        rw [hupd2] at hev
        dsimp only at hev
        rw [Except.ok.injEq, Prod.mk.injEq] at hev
        obtain ⟨hst, hvict⟩ := hev
        obtain ⟨hCdict, hCnext, hCtot, hCn⟩ := updateTotalDictionarySize_ok hupd2
        rw [← hst]
        have hCdict' : stC.dictionaries = deleteRowsByPrimaryKeys stA.dictionaries vs := by
          rw [hCdict]
        have hfilters : stC.dictionaries.filter (fun r => r.topFrameSite == site) =
            deleteRowsByPrimaryKeys
              (stA.dictionaries.filter (fun r => r.topFrameSite == site)) vs := by
          rw [hCdict']
          exact deleteRowsByPrimaryKeys_filter_comm _ vs stA.dictionaries
        have hndSite : ((stA.dictionaries.filter
            (fun r => r.topFrameSite == site)).map DictRecord.id).Nodup :=
          List.Nodup.sublist ((List.filter_sublist _).map DictRecord.id) hnd1
        have hndsorted : ((sortByLastUsedTime (stA.dictionaries.filter
            (fun r => r.topFrameSite == site))).map DictRecord.id).Nodup :=
          ((hpermSite.map DictRecord.id).nodup_iff).mpr hndSite
        have hndvs : (vs.map DictRecord.id).Nodup :=
          List.Nodup.sublist (hsub.map DictRecord.id) hndsorted
        have hmemvs : ∀ v ∈ vs, v ∈ stA.dictionaries.filter
            (fun r => r.topFrameSite == site) := fun v hv =>
          hpermSite.mem_iff.mp (hsub.subset hv)
        obtain ⟨hds, hdl, hdsub⟩ :=
          deleteRowsByPrimaryKeys_spec vs
            (stA.dictionaries.filter (fun r => r.topFrameSite == site))
            hndSite hndvs hmemvs
        have hcountC : getDictionaryCountPerSite stC site =
            (deleteRowsByPrimaryKeys (stA.dictionaries.filter
              (fun r => r.topFrameSite == site)) vs).length := by
          unfold getDictionaryCountPerSite
          rw [hfilters]
        have hsizeC : getDictionarySizePerSite stC site =
            sumSizes (deleteRowsByPrimaryKeys (stA.dictionaries.filter
              (fun r => r.topFrameSite == site)) vs) := by
          unfold getDictionarySizePerSite
          rw [hfilters]
        have hcountA : getDictionaryCountPerSite stA site =
            (stA.dictionaries.filter (fun r => r.topFrameSite == site)).length := rfl
        have hsizeA : getDictionarySizePerSite stA site =
            sumSizes (stA.dictionaries.filter (fun r => r.topFrameSite == site)) := rfl
        rcases hdisj with ⟨hc, hs⟩ | hfull
        · rw [hcountA] at hc
          constructor
          · rw [hcountC]
            omega
          · intro hms
            have hs' := hs hms
            rw [hsizeA] at hs'
            rw [hsizeC]
            omega
        · have hlenvs : vs.length = (stA.dictionaries.filter
              (fun r => r.topFrameSite == site)).length := by
            rw [hfull]
            exact hpermSite.length_eq
          have hsumvs : sumSizes vs = sumSizes (stA.dictionaries.filter
              (fun r => r.topFrameSite == site)) := by
            rw [hfull]
            exact sumSizes_perm hpermSite
          constructor
          · rw [hcountC]
            omega
          · intro _
            rw [hsizeC]
            omega

/-- Claim C3: after every successful `RegisterDictionary` with nonzero
`max_count_per_site` on a well-formed store with valid tokens (and a valid
token on the new row), the new row's site holds at most
`max_count_per_site` rows, and at most `max_size_per_site` bytes when that
budget is nonzero. -/
theorem register_perSiteLimits (st : StoreState) (key : IsolationKey) (d : DictInput)
    (ms mc : Nat) (st3 : StoreState) (res : RegisterDictionaryResult)
    (hwf : wellFormed st) (htok : tokensValid st) (hdtok : d.hasValidToken = true)
    (hmc : mc ≠ 0)
    (h : registerDictionaryImpl st key d ms mc = .ok (st3, res)) :
    getDictionaryCountPerSite st3 key.topFrameSite ≤ mc ∧
      (ms ≠ 0 → getDictionarySizePerSite st3 key.topFrameSite ≤ ms) := by
  obtain ⟨hinv, hndid, hbound, hndkey⟩ := hwf
  unfold registerDictionaryImpl at h
  split at h
  · cases h
  · cases hupd : updateTotalDictionarySize (registerInsertState st key d)
        (computeSizeDelta st key d) with
    | error e => rw [hupd] at h; cases h
    | ok p =>
      obtain ⟨stA, n⟩ := p
      rw [hupd] at h
      dsimp only at h
      obtain ⟨hAdict, hAnext, hAtot, hAn⟩ := updateTotalDictionarySize_ok hupd
      have htok1 : ∀ r ∈ stA.dictionaries, tokenValid r = true := by
        rw [hAdict]
        intro r hr
        simp only [registerInsertState] at hr
        rcases List.mem_append.mp hr with hr1 | hr2
        · exact htok r (List.mem_of_mem_filter hr1)
        · have hrn : r = newRecord st key d := by simpa using hr2
          rw [hrn, tokenValid_newRecord]
          exact hdtok
      have hnd1 : (stA.dictionaries.map DictRecord.id).Nodup := by
        rw [hAdict]
        simp only [registerInsertState, List.map_append]
        refine List.Nodup.append ?_ (by simp) ?_
        · exact List.Nodup.sublist ((List.filter_sublist _).map DictRecord.id) hndid
        · intro x hx hx2
          obtain ⟨r, hrmem, hrid⟩ := List.mem_map.mp hx
          have hxid : x = st.nextId := by
            simpa [newRecord] using hx2
          subst hxid
          have hlt := hbound r (List.mem_of_mem_filter hrmem)
          omega
      cases hev : maybeEvictDictionariesForPerSiteLimit stA key.topFrameSite ms mc with
      | error e => rw [hev] at h; cases h
      | ok q =>
        obtain ⟨stB, victims⟩ := q
        rw [hev] at h
        rw [Except.ok.injEq, Prod.mk.injEq] at h
        obtain ⟨hst3, hres⟩ := h
        rw [← hst3]
        exact maybeEvict_perSiteLimits stA key.topFrameSite ms mc stB victims htok1 hnd1 hev

def stW3 : StoreState := ⟨[⟨1, "o", "s", "h1", "m1", "u1", 0, 100, 1, 500, 1, 0⟩], 500, 2⟩

def dW3 : DictInput := ⟨"h", "m", "u", 0, 100, 5, 600, 2, 0⟩

def stW3out : StoreState := ⟨[⟨2, "o", "s", "h", "m", "u", 0, 100, 5, 600, 2, 0⟩], 600, 3⟩

def resW3out : RegisterDictionaryResult := ⟨2, none, [(1, 0)], 600, 1⟩

/-- Witness for C3: registering a 600-byte dictionary for a site already
holding 500 bytes under `max_size_per_site = 1000` evicts the old row and
leaves the site within both budgets. -/
theorem register_perSiteLimits_witness :
    (wellFormed stW3 ∧ tokensValid stW3 ∧ dW3.hasValidToken = true ∧ (10 : Nat) ≠ 0 ∧
      registerDictionaryImpl stW3 keyC5 dW3 1000 10 = .ok (stW3out, resW3out)) ∧
      getDictionaryCountPerSite stW3out keyC5.topFrameSite ≤ 10 ∧
      ((1000 : Nat) ≠ 0 → getDictionarySizePerSite stW3out keyC5.topFrameSite ≤ 1000) :=
  ⟨⟨by decide, by decide, by decide, by decide, rfl⟩,
   register_perSiteLimits stW3 keyC5 dW3 1000 10 stW3out resW3out (by decide) (by decide)
     (by decide) (by decide) rfl⟩

theorem sortById_perm (l : List DictRecord) : List.Perm (sortById l) l :=
  List.perm_insertionSort idLE l

/-- The sublist/accounting facts of the global eviction scan that hold with
no assumptions on the store: victims are a sublist of the scanned rows and
the reported remaining size is the running value minus their sizes. -/
theorem selectEvictionLoop_sublist (cms lw tr : Nat) :
    ∀ (rows : List DictRecord) (running removed lastOut : Nat)
      (vs : List DictRecord) (out : Nat),
      selectEvictionLoop cms lw tr rows running removed lastOut = .ok (vs, out) →
      List.Sublist vs rows ∧ (vs = [] → out = lastOut) ∧
        (vs ≠ [] → out + sumSizes vs = running) := by
  intro rows
  induction rows with
  | nil =>
    intro running removed lastOut vs out h
    rw [selectEvictionLoop_nil] at h
    cases h
    exact ⟨List.Sublist.refl _, fun _ => rfl, fun hne => absurd rfl hne⟩
  | cons r rest ih =>
    intro running removed lastOut vs out h
    by_cases htokr : tokenValid r = true
    · by_cases hge : running < r.size
      · have : selectEvictionLoop cms lw tr (r :: rest) running removed lastOut =
            .error .kInvalidTotalDictSize := by
          simp only [selectEvictionLoop, htokr, Bool.not_true, Bool.false_eq_true, if_false,
            if_pos hge]
        rw [this] at h
        cases h
      · by_cases hcrash : (2 : Nat) ^ 63 ≤ running - r.size
        · have : selectEvictionLoop cms lw tr (r :: rest) running removed lastOut =
              .error .crash := by
            simp only [selectEvictionLoop, htokr, Bool.not_true, Bool.false_eq_true, if_false,
              if_neg hge, if_pos hcrash]
          rw [this] at h
          cases h
        · by_cases hstop : (cms = 0 ∨ running - r.size ≤ lw) ∧ tr ≤ removed + 1
          · rw [selectEvictionLoop_cons_stop cms lw tr rest running removed lastOut htokr hge
              hcrash hstop] at h
            cases h
            refine ⟨(List.nil_sublist rest).cons₂ r,
              fun hx => absurd hx (List.cons_ne_nil _ _), fun _ => ?_⟩
            rw [sumSizes_cons, sumSizes_nil]
            omega
          · rw [selectEvictionLoop_cons_go cms lw tr rest running removed lastOut htokr hge
              hcrash hstop] at h
            cases hrec : selectEvictionLoop cms lw tr rest (running - r.size) (removed + 1)
                (running - r.size) with
            | error e => rw [hrec] at h; cases h
            | ok p =>
              obtain ⟨vs', out'⟩ := p
              rw [hrec] at h
              dsimp only at h
              cases h
              obtain ⟨ihsub, ihnil, ihne⟩ := ih (running - r.size) (removed + 1)
                (running - r.size) _ _ hrec
              refine ⟨ihsub.cons₂ r,
                fun hx => absurd hx (List.cons_ne_nil _ _), fun _ => ?_⟩
              rw [sumSizes_cons]
              by_cases hnil : vs' = []
              · have := ihnil hnil
                subst hnil
                rw [sumSizes_nil] at *
                omega
              · have := ihne hnil
                omega
    · have htokf : tokenValid r = false := by simpa using htokr
      rw [selectEvictionLoop_cons_skip cms lw tr rest running removed lastOut htokf] at h
      obtain ⟨ihsub, ihnil, ihne⟩ := ih running removed lastOut vs out h
      exact ⟨ihsub.cons r, ihnil, ihne⟩

/-- The sublist/accounting facts of the per-site scan with no assumptions
on the store. -/
theorem selectCandidatesLoop_sublist (tbs tbc : Nat) :
    ∀ (rows : List DictRecord) (accSize accCount : Nat)
      (vs : List DictRecord) (out : Nat),
      selectCandidatesLoop tbs tbc rows accSize accCount = .ok (vs, out) →
      List.Sublist vs rows ∧ out = accSize + sumSizes vs := by
  intro rows
  induction rows with
  | nil =>
    intro accSize accCount vs out h
    rw [selectCandidatesLoop_nil] at h
    cases h
    exact ⟨List.Sublist.refl _, by rw [sumSizes_nil]; omega⟩

  | cons r rest ih =>
    intro accSize accCount vs out h
    by_cases htokr : tokenValid r = true
    · by_cases hcrash : (2 : Nat) ^ 63 ≤ accSize + r.size
      · rw [selectCandidatesLoop_cons_crash tbs tbc rest accSize accCount htokr hcrash] at h
        cases h
      · by_cases hstop : tbs ≤ accSize + r.size ∧ tbc ≤ accCount + 1
        · rw [selectCandidatesLoop_cons_stop tbs tbc rest accSize accCount htokr hcrash hstop] at h
          cases h
          refine ⟨(List.nil_sublist rest).cons₂ r, ?_⟩
          rw [sumSizes_cons, sumSizes_nil]
          omega
        · rw [selectCandidatesLoop_cons_go tbs tbc rest accSize accCount htokr hcrash hstop] at h
          cases hrec : selectCandidatesLoop tbs tbc rest (accSize + r.size) (accCount + 1) with
          | error e => rw [hrec] at h; cases h
          | ok p =>
            obtain ⟨vs', out'⟩ := p
            rw [hrec] at h
            dsimp only at h
            cases h
            obtain ⟨ihsub, ihout⟩ := ih (accSize + r.size) (accCount + 1) _ _ hrec
            refine ⟨ihsub.cons₂ r, ?_⟩
            rw [sumSizes_cons]
            omega
    · have htokf : tokenValid r = false := by simpa using htokr
      rw [selectCandidatesLoop_cons_skip tbs tbc rest accSize accCount htokf] at h
      obtain ⟨ihsub, ihout⟩ := ih accSize accCount vs out h
      exact ⟨ihsub.cons r, ihout⟩

theorem identityMatches_iff (key : IsolationKey) (host mv : String) (r : DictRecord) :
    identityMatches key host mv r = true ↔
      identityKey r = (key.frameOrigin, key.topFrameSite, host, mv) := by
  simp [identityMatches, identityKey, Prod.mk.injEq, and_assoc]

/-- Under the unique identity index, the identity lookup finds either
nothing (and no row matches) or exactly one matching row. -/
theorem identity_filter_cases (st : StoreState) (key : IsolationKey) (host mv : String)
    (hnd : (st.dictionaries.map identityKey).Nodup) :
    (getExistingDictionary st key host mv = none ∧
        st.dictionaries.filter (identityMatches key host mv) = []) ∨
      (∃ old, getExistingDictionary st key host mv = some old ∧
        st.dictionaries.filter (identityMatches key host mv) = [old]) := by
  cases hf : st.dictionaries.filter (identityMatches key host mv) with
  | nil =>
    left
    refine ⟨?_, rfl⟩
    unfold getExistingDictionary
    rw [hf]
    rfl
  | cons a t =>
    right
    have ht : t = [] := by
      cases t with
      | nil => rfl
      | cons b t2 =>
        exfalso
        have hsub : List.Sublist
            ((st.dictionaries.filter (identityMatches key host mv)).map identityKey)
            (st.dictionaries.map identityKey) := (List.filter_sublist _).map identityKey
        have hndf := List.Nodup.sublist hsub hnd
        rw [hf] at hndf
        have hmema : a ∈ st.dictionaries.filter (identityMatches key host mv) := by
          rw [hf]; exact List.mem_cons_self _ _
        have hmemb : b ∈ st.dictionaries.filter (identityMatches key host mv) := by
          rw [hf]; exact List.mem_cons_of_mem _ (List.mem_cons_self _ _)
        have hka := (identityMatches_iff key host mv a).mp (List.of_mem_filter hmema)
        have hkb := (identityMatches_iff key host mv b).mp (List.of_mem_filter hmemb)
        simp only [List.map_cons, List.nodup_cons] at hndf
        apply hndf.1
        rw [hka, ← hkb]
        exact List.mem_cons_self _ _
    subst ht
    refine ⟨a, ?_, rfl⟩
    unfold getExistingDictionary
    rw [hf]
    rfl

theorem schemaInv_sublist {st st2 : StoreState}
    (h : List.Sublist st2.dictionaries st.dictionaries) (hnx : st.nextId ≤ st2.nextId)
    (hs : schemaInv st) : schemaInv st2 := by
  obtain ⟨h1, h2, h3⟩ := hs
  refine ⟨List.Nodup.sublist (h.map _) h1, ?_, List.Nodup.sublist (h.map _) h3⟩
  intro r hr
  exact lt_of_lt_of_le (h2 r (h.subset hr)) hnx

/-- `MaybeEvictDictionariesForPerSiteLimit` preserves the running-total and
schema invariants. -/
theorem wellFormed_maybeEvict (stA : StoreState) (site : String) (ms mc : Nat)
    (stB : StoreState) (victims : List DictRecord)
    (hwfA : wellFormed stA)
    (hev : maybeEvictDictionariesForPerSiteLimit stA site ms mc = .ok (stB, victims)) :
    wellFormed stB := by
  obtain ⟨hinv, hndid, hbound, hndkey⟩ := hwfA
  unfold maybeEvictDictionariesForPerSiteLimit at hev
  cases hsel : selectCandidatesForPerSiteEviction stA site ms mc with
  | error e => rw [hsel] at hev; cases hev
  | ok q2 =>
    obtain ⟨vs, candSize⟩ := q2
    rw [hsel] at hev
    dsimp only at hev
    have hpermSite := sortByLastUsedTime_perm
      (stA.dictionaries.filter (fun r => r.topFrameSite == site))
    have hselpost : List.Sublist vs (sortByLastUsedTime
        (stA.dictionaries.filter (fun r => r.topFrameSite == site))) ∧
        candSize = sumSizes vs := by
      simp only [selectCandidatesForPerSiteEviction] at hsel
      split at hsel
      · cases hsel
        exact ⟨List.nil_sublist _, by rw [sumSizes_nil]⟩
      · obtain ⟨hsub, hout⟩ := selectCandidatesLoop_sublist _ _ _ 0 0 vs candSize hsel
        exact ⟨hsub, by omega⟩
    obtain ⟨hsub, hcand⟩ := hselpost
    split at hev
    · rename_i hvnil
      rw [Except.ok.injEq, Prod.mk.injEq] at hev
      obtain ⟨hst, hvict⟩ := hev
      rw [← hst]
      exact ⟨hinv, hndid, hbound, hndkey⟩
    · rename_i hvne
      cases hupd2 : updateTotalDictionarySize
          { stA with dictionaries := deleteRowsByPrimaryKeys stA.dictionaries vs }
          (-(candSize : Int)) with
      | error e => rw [hupd2] at hev; cases hev
      | ok p2 =>
        obtain ⟨stC, n2⟩ := p2
        rw [hupd2] at hev
        dsimp only at hev
        rw [Except.ok.injEq, Prod.mk.injEq] at hev
        obtain ⟨hst, hvict⟩ := hev
        rw [← hst]
        obtain ⟨hCdict, hCnext, hCtot, hCn⟩ := updateTotalDictionarySize_ok hupd2
        have hCdict' : stC.dictionaries = deleteRowsByPrimaryKeys stA.dictionaries vs := by
          rw [hCdict]
        have hCnext' : stC.nextId = stA.nextId := by
          rw [hCnext]
        have hndSite : ((stA.dictionaries.filter
            (fun r => r.topFrameSite == site)).map DictRecord.id).Nodup :=
          List.Nodup.sublist ((List.filter_sublist _).map DictRecord.id) hndid
        have hndvs : (vs.map DictRecord.id).Nodup :=
          List.Nodup.sublist (hsub.map DictRecord.id)
            (((hpermSite.map DictRecord.id).nodup_iff).mpr hndSite)
        have hmemvs : ∀ v ∈ vs, v ∈ stA.dictionaries := fun v hv =>
          List.mem_of_mem_filter (hpermSite.mem_iff.mp (hsub.subset hv))
        obtain ⟨hds, hdl, hdsub⟩ :=
          deleteRowsByPrimaryKeys_spec vs stA.dictionaries hndid hndvs hmemvs
        refine ⟨?_, ?_⟩
        · unfold sizeInv at hinv ⊢
          rw [hCdict']
          have htot : (stC.totalDictSize : Int) = (stA.totalDictSize : Int) - candSize := by
            simpa using hCtot
          omega
        · have hsubC : List.Sublist stC.dictionaries stA.dictionaries := by
            rw [hCdict']
            exact hdsub
          exact schemaInv_sublist hsubC (le_of_eq hCnext'.symm) ⟨hndid, hbound, hndkey⟩

/-- `RegisterDictionaryImpl` preserves the running-total and schema
invariants. -/
theorem wellFormed_register (st : StoreState) (key : IsolationKey) (d : DictInput)
    (ms mc : Nat) (st3 : StoreState) (res : RegisterDictionaryResult)
    (hwf : wellFormed st)
    (h : registerDictionaryImpl st key d ms mc = .ok (st3, res)) :
    wellFormed st3 := by
  obtain ⟨hinv, hndid, hbound, hndkey⟩ := hwf
  unfold registerDictionaryImpl at h
  split at h
  · cases h
  · cases hupd : updateTotalDictionarySize (registerInsertState st key d)
        (computeSizeDelta st key d) with
    | error e => rw [hupd] at h; cases h
    | ok p =>
      obtain ⟨stA, n⟩ := p
      rw [hupd] at h
      dsimp only at h
      obtain ⟨hAdict, hAnext, hAtot, hAn⟩ := updateTotalDictionarySize_ok hupd
      have hAdict' : stA.dictionaries =
          st.dictionaries.filter (fun r => !(identityMatches key d.host d.matchValue r)) ++
            [newRecord st key d] := by
        rw [hAdict]; rfl
      have hAnext' : stA.nextId = st.nextId + 1 := by
        rw [hAnext]; rfl
      have hpart := sumSizes_filter_add (identityMatches key d.host d.matchValue) st.dictionaries
      have hsum1 : sumSizes stA.dictionaries =
          sumSizes (st.dictionaries.filter
            (fun r => !(identityMatches key d.host d.matchValue r))) + d.size := by
        rw [hAdict', sumSizes_append, sumSizes_cons, sumSizes_nil]
        simp [newRecord]
      have hdelta : computeSizeDelta st key d =
          (d.size : Int) -
            (sumSizes (st.dictionaries.filter (identityMatches key d.host d.matchValue)) : Int) := by
        rcases identity_filter_cases st key d.host d.matchValue hndkey with
          ⟨hge, hfe⟩ | ⟨old, hge, hfe⟩
        · unfold computeSizeDelta
          rw [hge, hfe, sumSizes_nil]
          simp
        · unfold computeSizeDelta
          rw [hge, hfe, sumSizes_cons, sumSizes_nil]
          simp
      have hinvA : sizeInv stA := by
        unfold sizeInv at hinv ⊢
        have h1 : (stA.totalDictSize : Int) =
            (st.totalDictSize : Int) + computeSizeDelta st key d := by
          simpa using hAtot
        rw [hdelta] at h1
        omega
      have hschA : schemaInv stA := by
        refine ⟨?_, ?_, ?_⟩
        · rw [hAdict']
          simp only [List.map_append]
          refine List.Nodup.append ?_ (by simp) ?_
          · exact List.Nodup.sublist ((List.filter_sublist _).map DictRecord.id) hndid
          · intro x hx hx2
            obtain ⟨r, hrmem, hrid⟩ := List.mem_map.mp hx
            have hxid : x = st.nextId := by simpa [newRecord] using hx2
            subst hxid
            have hlt := hbound r (List.mem_of_mem_filter hrmem)
            omega
        · rw [hAdict', hAnext']
          intro r hr
          rcases List.mem_append.mp hr with hr1 | hr2
          · exact lt_trans (hbound r (List.mem_of_mem_filter hr1)) (by omega)
          · have hrn : r = newRecord st key d := by simpa using hr2
            rw [hrn]
            show st.nextId < st.nextId + 1
            omega
        · rw [hAdict']
          simp only [List.map_append]
          refine List.Nodup.append ?_ (by simp) ?_
          · exact List.Nodup.sublist ((List.filter_sublist _).map identityKey) hndkey
          · intro x hx hx2
            obtain ⟨r, hrmem, hrkey⟩ := List.mem_map.mp hx
            have hxk : x = identityKey (newRecord st key d) := by simpa using hx2
            have hnot : ¬ (identityMatches key d.host d.matchValue r = true) := by
              have := List.of_mem_filter hrmem
              simpa using this
            apply hnot
            rw [identityMatches_iff, hrkey, hxk]
            rfl
      cases hev : maybeEvictDictionariesForPerSiteLimit stA key.topFrameSite ms mc with
      | error e => rw [hev] at h; cases h
      | ok q =>
        obtain ⟨stB, victims⟩ := q
        rw [hev] at h
        rw [Except.ok.injEq, Prod.mk.injEq] at h
        obtain ⟨hst3, hres⟩ := h
        rw [← hst3]
        exact wellFormed_maybeEvict stA key.topFrameSite ms mc stB victims ⟨hinvA, hschA⟩ hev

/-- `ClearAllDictionariesImpl` preserves the invariants. -/
theorem wellFormed_clearAll (st : StoreState) (hwf : wellFormed st) :
    wellFormed (clearAllDictionaries st) :=
  ⟨rfl, by simp [clearAllDictionaries], by simp [clearAllDictionaries],
    by simp [clearAllDictionaries]⟩

/-- `DeleteExpiredDictionariesImpl` preserves the invariants. -/
theorem wellFormed_deleteExpired (st : StoreState) (now : Int) (st2 : StoreState)
    (toks : List (Nat × Nat)) (hwf : wellFormed st)
    (h : deleteExpiredDictionaries st now = .ok (st2, toks)) :
    wellFormed st2 := by
  obtain ⟨hinv, hndid, hbound, hndkey⟩ := hwf
  have hpart := sumSizes_filter_add (fun r => decide (r.expTime ≤ now)) st.dictionaries
  have hkeptsub : List.Sublist
      (st.dictionaries.filter (fun r => !(decide (r.expTime ≤ now)))) st.dictionaries :=
    List.filter_sublist _
  simp only [deleteExpiredDictionaries] at h
  split at h
  · cases h
  · split at h
    · split at h
      · cases h
      · rename_i st4 n heq
        rw [Except.ok.injEq, Prod.mk.injEq] at h
        obtain ⟨hst, _⟩ := h
        rw [← hst]
        obtain ⟨hDdict, hDnext, hDtot, hDn⟩ := updateTotalDictionarySize_ok heq
        refine ⟨?_, ?_⟩
        · unfold sizeInv at hinv ⊢
          rw [hDdict]
          have htot : (st4.totalDictSize : Int) = (st.totalDictSize : Int) -
              (sumSizes (st.dictionaries.filter (fun r => decide (r.expTime ≤ now))) : Int) := by
            simpa using hDtot
          dsimp only
          omega
        · refine schemaInv_sublist ?_ ?_ ⟨hndid, hbound, hndkey⟩
          · rw [hDdict]
            exact hkeptsub
          · rw [hDnext]
    · rename_i hzero
      rw [Except.ok.injEq, Prod.mk.injEq] at h
      obtain ⟨hst, _⟩ := h
      rw [← hst]
      refine ⟨?_, schemaInv_sublist hkeptsub (le_refl _) ⟨hndid, hbound, hndkey⟩⟩
      unfold sizeInv at hinv ⊢
      dsimp only
      omega

/-- `ClearDictionariesImpl` preserves the invariants. -/
theorem wellFormed_clear (st : StoreState) (startTime : Int) (endTime : Option Int)
    (m : Option (String → Bool)) (st2 : StoreState) (toks : List (Nat × Nat))
    (hwf : wellFormed st)
    (h : clearDictionaries st startTime endTime m = .ok (st2, toks)) :
    wellFormed st2 := by
  obtain ⟨hinv, hndid, hbound, hndkey⟩ := hwf
  have hvic_mem : ∀ v ∈ matchingRows st startTime endTime m, v ∈ st.dictionaries :=
    fun v hv => List.mem_of_mem_filter hv
  have hvic_nd : ((matchingRows st startTime endTime m).map DictRecord.id).Nodup :=
    List.Nodup.sublist ((List.filter_sublist _).map DictRecord.id) hndid
  obtain ⟨hds, hdl, hdsub⟩ :=
    deleteRowsByPrimaryKeys_spec (matchingRows st startTime endTime m) st.dictionaries
      hndid hvic_nd hvic_mem
  simp only [clearDictionaries] at h
  split at h
  · cases h
  · split at h
    · split at h
      · cases h
      · rename_i st4 n heq
        rw [Except.ok.injEq, Prod.mk.injEq] at h
        obtain ⟨hst, _⟩ := h
        rw [← hst]
        obtain ⟨hDdict, hDnext, hDtot, hDn⟩ := updateTotalDictionarySize_ok heq
        refine ⟨?_, ?_⟩
        · unfold sizeInv at hinv ⊢
          rw [hDdict]
          have htot : (st4.totalDictSize : Int) = (st.totalDictSize : Int) -
              (sumSizes (matchingRows st startTime endTime m) : Int) := by
            simpa using hDtot
          dsimp only
          omega
        · refine schemaInv_sublist ?_ ?_ ⟨hndid, hbound, hndkey⟩
          · rw [hDdict]
            exact hdsub
          · rw [hDnext]
    · rename_i hzero
      rw [Except.ok.injEq, Prod.mk.injEq] at h
      obtain ⟨hst, _⟩ := h
      rw [← hst]
      refine ⟨?_, schemaInv_sublist hdsub (le_refl _) ⟨hndid, hbound, hndkey⟩⟩
      unfold sizeInv at hinv ⊢
      dsimp only
      omega

/-- `DeleteDictionariesByDiskCacheKeyTokensImpl` preserves the invariants. -/
theorem wellFormed_deleteByTokens (st : StoreState) (tokens : List (Nat × Nat))
    (st2 : StoreState) (hwf : wellFormed st)
    (h : deleteDictionariesByDiskCacheKeyTokens st tokens = .ok st2) :
    wellFormed st2 := by
  obtain ⟨hinv, hndid, hbound, hndkey⟩ := hwf
  have hpart := sumSizes_filter_add
    (fun r => tokens.any (fun t => r.tokenHigh == t.1 && r.tokenLow == t.2)) st.dictionaries
  have hkeptsub : List.Sublist
      (st.dictionaries.filter
        (fun r => !(tokens.any (fun t => r.tokenHigh == t.1 && r.tokenLow == t.2))))
      st.dictionaries := List.filter_sublist _
  simp only [deleteDictionariesByDiskCacheKeyTokens] at h
  split at h
  · cases h
  · split at h
    · split at h
      · cases h
      · rename_i st4 n heq
        rw [Except.ok.injEq] at h
        rw [← h]
        obtain ⟨hDdict, hDnext, hDtot, hDn⟩ := updateTotalDictionarySize_ok heq
        refine ⟨?_, ?_⟩
        · unfold sizeInv at hinv ⊢
          rw [hDdict]
          have htot : (st4.totalDictSize : Int) = (st.totalDictSize : Int) -
              (sumSizes (st.dictionaries.filter
                (fun r => tokens.any (fun t => r.tokenHigh == t.1 && r.tokenLow == t.2))) : Int) := by
            simpa using hDtot
          dsimp only
          omega
        · refine schemaInv_sublist ?_ ?_ ⟨hndid, hbound, hndkey⟩
          · rw [hDdict]
            exact hkeptsub
          · rw [hDnext]
    · rename_i hzero
      rw [Except.ok.injEq] at h
      rw [← h]
      refine ⟨?_, schemaInv_sublist hkeptsub (le_refl _) ⟨hndid, hbound, hndkey⟩⟩
      unfold sizeInv at hinv ⊢
      dsimp only
      omega

/-- `ProcessEvictionImpl` preserves the invariants. -/
theorem wellFormed_processEviction (st : StoreState) (a b c dcl : Nat) (st2 : StoreState)
    (toks : List (Nat × Nat)) (hwf : wellFormed st)
    (h : processEviction st a b c dcl = .ok (st2, toks)) : wellFormed st2 := by
  obtain ⟨hinv, hndid, hbound, hndkey⟩ := hwf
  unfold processEviction at h
  cases hsel : selectEvictionCandidates st a b c dcl with
  | error e => rw [hsel] at h; cases h
  | ok q =>
    obtain ⟨victims, out⟩ := q
    rw [hsel] at h
    dsimp only at h
    split at h
    · rename_i hvnil
      rw [Except.ok.injEq, Prod.mk.injEq] at h
      obtain ⟨hst, _⟩ := h
      rw [← hst]
      exact ⟨hinv, hndid, hbound, hndkey⟩
    · rename_i hvne
      rw [Except.ok.injEq, Prod.mk.injEq] at h
      obtain ⟨hst, _⟩ := h
      rw [← hst]
      have hperm := sortByLastUsedTime_perm st.dictionaries
      have hloop : List.Sublist victims (sortByLastUsedTime st.dictionaries) ∧
          out + sumSizes victims = st.totalDictSize := by
        simp only [selectEvictionCandidates] at hsel
        split at hsel
        · cases hsel
          exact absurd rfl hvne
        · obtain ⟨hsub, hnil, hne⟩ := selectEvictionLoop_sublist _ _ _ _ _ _ _ _ _ hsel
          exact ⟨hsub, hne hvne⟩
      obtain ⟨hsub, hout⟩ := hloop
      have hmemv : ∀ v ∈ victims, v ∈ st.dictionaries := fun v hv =>
        hperm.mem_iff.mp (hsub.subset hv)
      have hndv : (victims.map DictRecord.id).Nodup :=
        List.Nodup.sublist (hsub.map DictRecord.id)
          (((hperm.map DictRecord.id).nodup_iff).mpr hndid)
      obtain ⟨hds, hdl, hdsub⟩ :=
        deleteRowsByPrimaryKeys_spec victims st.dictionaries hndid hndv hmemv
      refine ⟨?_, schemaInv_sublist hdsub (le_refl _) ⟨hndid, hbound, hndkey⟩⟩
      unfold sizeInv at hinv ⊢
      dsimp only
      omega

/-- One step of invariant preservation for every store operation. -/
theorem wellFormed_applyOp (st : StoreState) (op : StoreOp) (hwf : wellFormed st) :
    wellFormed (applyOp st op) := by
  cases op with
  | register key d ms mc =>
    simp only [applyOp, registerDictionary]
    split
    · rename_i st2 res heq
      split at heq
      · cases heq
      · exact wellFormed_register st key d ms mc st2 res hwf (Option.some.inj heq)
    · exact hwf
  | clearAll => exact wellFormed_clearAll st hwf
  | clear stime etime m =>
    simp only [applyOp]
    split
    · rename_i st2 toks heq
      exact wellFormed_clear st stime etime m st2 toks hwf heq
    · exact hwf
  | deleteExpired now =>
    simp only [applyOp]
    split
    · rename_i st2 toks heq
      exact wellFormed_deleteExpired st now st2 toks hwf heq
    · exact hwf
  | procEviction a b c dcl =>
    simp only [applyOp]
    split
    · rename_i st2 toks heq
      exact wellFormed_processEviction st a b c dcl st2 toks hwf heq
    · exact hwf
  | deleteByTokens toks =>
    simp only [applyOp]
    split
    · rename_i st2 heq
      exact wellFormed_deleteByTokens st toks st2 hwf heq
    · exact hwf

theorem wellFormed_applyOps (ops : List StoreOp) :
    ∀ (st : StoreState), wellFormed st → wellFormed (applyOps st ops) := by
  induction ops with
  | nil => intro st hwf; exact hwf
  | cons op ops ih =>
    intro st hwf
    exact ih (applyOp st op) (wellFormed_applyOp st op hwf)

/-- Claim C2: starting from any well-formed store (in particular the fresh
database, whose table is empty and whose counter is zero), after every
sequence of committed operations the persisted RunningTotal counter equals
the sum of the `size` column over the rows still present; operations that
fail or abort roll back and leave the state unchanged. -/
theorem runningTotal_invariant (st0 : StoreState) (ops : List StoreOp)
    (hwf : wellFormed st0) :
    (applyOps st0 ops).totalDictSize = sumSizes (applyOps st0 ops).dictionaries ∧
      wellFormed (applyOps st0 ops) :=
  ⟨(wellFormed_applyOps ops st0 hwf).1, wellFormed_applyOps ops st0 hwf⟩

/-- Witness for C2: the fresh store followed by a register, an eviction
pass, an expiry sweep and a clear. -/
theorem runningTotal_invariant_witness :
    wellFormed (⟨[], 0, 1⟩ : StoreState) ∧
      ((applyOps ⟨[], 0, 1⟩
          [.register ⟨"o", "s"⟩ ⟨"h", "m", "u", 0, 100, 5, 10, 3, 0⟩ 0 1,
           .register ⟨"o", "s"⟩ ⟨"h2", "m2", "u2", 0, 100, 6, 7, 4, 0⟩ 0 5,
           .procEviction 5 5 10 10, .deleteExpired 50, .clear 0 none none]).totalDictSize =
        sumSizes (applyOps ⟨[], 0, 1⟩
          [.register ⟨"o", "s"⟩ ⟨"h", "m", "u", 0, 100, 5, 10, 3, 0⟩ 0 1,
           .register ⟨"o", "s"⟩ ⟨"h2", "m2", "u2", 0, 100, 6, 7, 4, 0⟩ 0 5,
           .procEviction 5 5 10 10, .deleteExpired 50, .clear 0 none none]).dictionaries ∧
        wellFormed (applyOps ⟨[], 0, 1⟩
          [.register ⟨"o", "s"⟩ ⟨"h", "m", "u", 0, 100, 5, 10, 3, 0⟩ 0 1,
           .register ⟨"o", "s"⟩ ⟨"h2", "m2", "u2", 0, 100, 6, 7, 4, 0⟩ 0 5,
           .procEviction 5 5 10 10, .deleteExpired 50, .clear 0 none none])) :=
  ⟨by decide,
   runningTotal_invariant ⟨[], 0, 1⟩
     [.register ⟨"o", "s"⟩ ⟨"h", "m", "u", 0, 100, 5, 10, 3, 0⟩ 0 1,
      .register ⟨"o", "s"⟩ ⟨"h2", "m2", "u2", 0, 100, 6, 7, 4, 0⟩ 0 5,
      .procEviction 5 5 10 10, .deleteExpired 50, .clear 0 none none] (by decide)⟩

end SharedDictStore


namespace Writers

def ERR_IO_PENDING : Int := -1

def ERR_FAILED : Int := -2

def ERR_CACHE_WRITE_FAILURE : Int := -402

/-- `MINIMUM_PRIORITY` (= `THROTTLED` = 0 in `RequestPriority`). -/
def MINIMUM_PRIORITY : Nat := 0

/-- The response-header facts `HttpCache::Writers` consults. -/
structure RespInfo where
  contentLength : Int
  hasStrongValidators : Bool
  hasAcceptRangesNone : Bool
  hasContentEncoding : Bool
  singleKeyedUnusable : Bool
  deriving DecidableEq

/-- A consumer transaction: its identity and its priority (the only
attribute `Writers` reads back from the transaction object). -/
structure Txn where
  id : Nat
  priority : Nat
  deriving DecidableEq

/-- `Writers::TransactionInfo`: whether the transaction has a PartialData
object, whether the prior entry content was truncated, and the response
info snapshot. -/
structure TransactionInfo where
  isPartial : Bool
  truncated : Bool
  responseInfo : RespInfo
  deriving DecidableEq

/-- `Writers::WaitingForRead`: the queued consumer's buffer capacity. -/
structure WaitingForRead where
  readBufLen : Nat
  deriving DecidableEq

/-- `Writers::State`. -/
inductive WState where
  | unset
  | none
  | networkRead
  | networkReadComplete
  | cacheWriteData
  | cacheWriteDataComplete
  | markSKEUnusable
  | markSKEUnusableComplete
  deriving DecidableEq

/-- Observable effects on the collaborators: consumer callbacks and buffer
fills, disk-entry writes, priority updates, entry dooming, and the
`WritersDoneWritingToEntry` cache callback (whose arguments are captured at
bind time). -/
inductive WEvent where
  | writerRemoved (txn : Nat) (result : Int)
  | setNetworkPriority (p : Nat)
  | bufferFilled (txn : Nat) (data : List Nat)
  | callbackPosted (txn : Nat) (result : Int)
  | truncateEntryWrite
  | doomEntry
  | doneWriting (success : Bool) (keep : Bool) (readers : List Nat)
  | cacheWrite (offset : Nat) (len : Int)
  | partialCacheWrite (len : Int)
  | markUnusableWrite
  deriving DecidableEq

/-- The in-memory state of one `HttpCache::Writers` session, with the two
external reads it performs (`disk_entry->GetDataSize` and the network
response's content length) modelled as state fields. -/
structure WritersState where
  nextState : WState
  allWriters : List (Txn × TransactionInfo)
  waitingForRead : List (Txn × WaitingForRead)
  activeTransaction : Option Txn
  networkTransaction : Bool
  checksum : Bool
  networkReadOnly : Bool
  shouldKeepEntry : Bool
  isExclusive : Bool
  priority : Nat
  doNotTruncate : Bool
  responseInfoTruncation : RespInfo
  readBufLen : Nat
  writeLen : Int
  readBufContent : List Nat
  diskDataSize : Nat
  netRespContentLength : Int
  haveCacheCallback : Bool
  deriving DecidableEq

def findWriter (st : WritersState) (t : Txn) : Option TransactionInfo :=
  (st.allWriters.find? (fun p => decide (p.1 = t))).map Prod.snd

/-- `UpdatePriority`: recompute the maximum across attached transactions
and push it to the network transaction when it changed. -/
def updatePriority (st : WritersState) : WritersState × List WEvent :=
  let currentHighest := st.allWriters.foldl (fun acc w => max w.1.priority acc) MINIMUM_PRIORITY
  if st.priority ≠ currentHighest then
    ({ st with priority := currentHighest },
      if st.networkTransaction then [.setNetworkPriority currentHighest] else [])
  else (st, [])

/-- `EraseTransaction`: notify the writer, drop it from `all_writers_`,
reset the network transaction when the session emptied while idle (else
update the priority), then clear the active slot or the waiting entry. -/
def eraseTransaction (st : WritersState) (t : Txn) (result : Int) :
    WritersState × List WEvent :=
  let ev0 : List WEvent := [.writerRemoved t.id result]
  let writers2 := st.allWriters.filter (fun p => !(decide (p.1 = t)))
  let st1 := { st with allWriters := writers2 }
  let step2 :=
    if writers2.isEmpty ∧ st1.nextState = WState.none then
      ({ st1 with networkTransaction := false }, ([] : List WEvent))
    else updatePriority st1
  let st2 := step2.1
  let st3 :=
    if st2.activeTransaction = some t then { st2 with activeTransaction := none }
    else { st2 with waitingForRead := st2.waitingForRead.filter (fun p => !(decide (p.1 = t))) }
  (st3, ev0 ++ step2.2)

/-- The loop body of `CompleteWaitingForReadTransactions`, iterating over a
snapshot of the map (erasures inside the loop only remove the entry being
visited, so the snapshot iteration matches the source's live iteration).
On success each queued consumer receives `min(its buffer, result)` bytes of
`read_buf_` and its callback gets that count; on `result <= 0` the
transaction is also erased from the session. -/
def completeWaitingLoop (result : Int) :
    WritersState → List (Txn × WaitingForRead) → WritersState × List WEvent
  | st, [] => (st, [])
  | st, (t, w) :: rest =>
    let writeLen : Nat := if 0 ≤ result then min w.readBufLen result.toNat else 0
    let ev1 : List WEvent :=
      if 0 ≤ result then
        [.bufferFilled t.id (st.readBufContent.take writeLen),
         .callbackPosted t.id (Int.ofNat writeLen)]
      else [.callbackPosted t.id result]
    let st1 := { st with waitingForRead := st.waitingForRead.filter (fun p => !(decide (p.1 = t))) }
    let step2 :=
      if result ≤ 0 then eraseTransaction st1 t result else (st1, ([] : List WEvent))
    let step3 := completeWaitingLoop result step2.1 rest
    (step3.1, ev1 ++ step2.2 ++ step3.2)

def completeWaitingForReadTransactions (st : WritersState) (result : Int) :
    WritersState × List WEvent :=
  completeWaitingLoop result st st.waitingForRead

/-- The loop body of `RemoveIdleWriters` over a snapshot of
`all_writers_`. -/
def removeIdleWritersLoop (result : Int) :
    WritersState → List (Txn × TransactionInfo) → WritersState × List WEvent
  | st, [] => (st, [])
  | st, (t, _) :: rest =>
    if st.activeTransaction = some t then removeIdleWritersLoop result st rest
    else
      let step1 := eraseTransaction st t result
      let step2 := removeIdleWritersLoop result step1.1 rest
      (step2.1, step1.2 ++ step2.2)

def removeIdleWriters (st : WritersState) (result : Int) : WritersState × List WEvent :=
  removeIdleWritersLoop result st st.allWriters

/-- `ProcessFailure`: fail every queued consumer with the error, then
remove the idle writers. -/
def processFailure (st : WritersState) (error : Int) : WritersState × List WEvent :=
  let step1 := completeWaitingForReadTransactions st error
  let step2 := removeIdleWriters step1.1 error
  (step2.1, step1.2 ++ step2.2)

/-- `ShouldTruncate`, including its mutations of `should_keep_entry_`. -/
def shouldTruncate (st : WritersState) : Bool × WritersState :=
  if ¬ st.shouldKeepEntry ∨ st.doNotTruncate then (false, st)
  else if st.responseInfoTruncation.contentLength ≤ 0 ∨
      st.responseInfoTruncation.hasAcceptRangesNone ∨
      ¬ st.responseInfoTruncation.hasStrongValidators then
    (false, { st with shouldKeepEntry := false })
  else if st.diskDataSize = 0 then (false, { st with shouldKeepEntry := false })
  else if st.responseInfoTruncation.hasContentEncoding then
    (false, { st with shouldKeepEntry := false })
  else if 0 ≤ st.responseInfoTruncation.contentLength ∧
      st.responseInfoTruncation.contentLength ≤ (st.diskDataSize : Int) then
    (false, st)
  else (true, st)

/-- `TruncateEntry`: persist the truncated response info (the write of the
pickled metadata; `io_buf_len_` is set to the pickle's size, an external
value never read again on this path, so the model leaves it). -/
def truncateEntry (st : WritersState) : WritersState × List WEvent :=
  (st, [.truncateEntryWrite])

/-- `SetCacheCallback`: bind `WritersDoneWritingToEntry`; the arguments
(`success`, `should_keep_entry_`, readers) are captured now. -/
def setCacheCallback (st : WritersState) (success : Bool) (makeReaders : List Nat) :
    WritersState × List WEvent :=
  ({ st with haveCacheCallback := true },
    [.doneWriting success st.shouldKeepEntry makeReaders])

/-- `OnNetworkReadFailure`. -/
def onNetworkReadFailure (st : WritersState) (result : Int) : WritersState × List WEvent :=
  let step1 := processFailure st result
  let step2 :=
    match step1.1.activeTransaction with
    | some t => eraseTransaction step1.1 t result
    | Option.none => (step1.1, ([] : List WEvent))
  let st3 := { step2.1 with activeTransaction := none }
  let truncStep := shouldTruncate st3
  let step3 := if truncStep.1 then truncateEntry truncStep.2 else (truncStep.2, [])
  let step4 := setCacheCallback step3.1 false []
  (step4.1, step1.2 ++ step2.2 ++ step3.2 ++ step4.2)

/-- `OnCacheWriteFailure`: fail the queued consumers, flip the session into
permanent network-read-only mode, drop the active slot and the keep-entry
flag, then finish or doom the entry. -/
def onCacheWriteFailure (st : WritersState) : WritersState × List WEvent :=
  let step1 := processFailure st ERR_CACHE_WRITE_FAILURE
  let st2 := { step1.1 with networkReadOnly := true, activeTransaction := none,
                            shouldKeepEntry := false }
  if st2.allWriters.isEmpty then
    let step2 := setCacheCallback st2 false []
    (step2.1, step1.2 ++ step2.2)
  else (st2, step1.2 ++ [.doomEntry])

/-- `active_transaction_ != nullptr && it->second.partial != nullptr`. -/
def activeIsPartial (st : WritersState) : Bool :=
  match st.activeTransaction with
  | some t => ((findWriter st t).map TransactionInfo.isPartial).getD false
  | Option.none => false

/-- `OnDataReceived`. -/
def onDataReceived (st : WritersState) (result : Int) : WritersState × List WEvent :=
  if activeIsPartial st then ({ st with activeTransaction := none }, [])
  else if result = 0 then
    if 0 ≤ st.netRespContentLength ∧ (st.diskDataSize : Int) < st.netRespContentLength then
      onNetworkReadFailure st 0
    else
      let step1 :=
        match st.activeTransaction with
        | some t => eraseTransaction st t 0
        | Option.none => (st, ([] : List WEvent))
      let st2 := { step1.1 with activeTransaction := none }
      let step2 := completeWaitingForReadTransactions st2 st2.writeLen
      let makeReaders := step2.1.allWriters.map (fun p => p.1.id)
      let st4 := { step2.1 with allWriters := [] }
      let step3 := setCacheCallback st4 true makeReaders
      (step3.1, step1.2 ++ step2.2 ++ step3.2)
  else
    let step1 := completeWaitingForReadTransactions st st.writeLen
    ({ step1.1 with activeTransaction := none }, step1.2)

/-- `DoCacheWriteData`: record `write_len_`, skip the disk write entirely
when there is nothing to write or the session is network-read-only, else
issue the content write (through PartialData for a partial active
transaction); `cacheRv` is the byte count the disk entry reports. -/
def doCacheWriteData (st : WritersState) (numBytes : Int) (cacheRv : Int) :
    Int × WritersState × List WEvent :=
  let st1 := { st with nextState := WState.cacheWriteDataComplete, writeLen := numBytes }
  if numBytes = 0 ∨ st1.networkReadOnly then (numBytes, st1, [])
  else if activeIsPartial st1 then (cacheRv, st1, [.partialCacheWrite numBytes])
  else (cacheRv, st1, [.cacheWrite st1.diskDataSize numBytes])

/-- `DoCacheWriteDataComplete`: append to the checksum (or, at end of body,
consume it and divert to the MARK state on mismatch); a result different
from `write_len_` is a cache write failure, but the value returned to the
active consumer is still `write_len_`. -/
def doCacheWriteDataComplete (st : WritersState) (result : Int) (checksumMatches : Bool) :
    Int × WritersState × List WEvent :=
  let st1 := { st with nextState := WState.none }
  let st2 :=
    if st1.checksum then
      if 0 < st1.writeLen then st1
      else
        { st1 with checksum := false,
                   nextState := if checksumMatches then WState.none else WState.markSKEUnusable }
    else st1
  if result ≠ st2.writeLen then
    let step := onCacheWriteFailure st2
    (st2.writeLen, step.1, step.2)
  else
    let step := onDataReceived st2 result
    (result, step.1, step.2)

/-- `DoMarkSingleKeyedCacheEntryUnusable`: flag the response info and write
it back to the metadata stream. -/
def doMarkSKEUnusable (st : WritersState) : WritersState × List WEvent :=
  ({ st with
      responseInfoTruncation := { st.responseInfoTruncation with singleKeyedUnusable := true },
      nextState := WState.markSKEUnusableComplete },
    [.markUnusableWrite])

/-- `DoMarkSingleKeyedCacheEntryUnusableComplete`: returns the data write's
length, treating a failed metadata write as a cache write failure. -/
def doMarkSKEUnusableComplete (st : WritersState) (result : Int) :
    Int × WritersState × List WEvent :=
  let st1 := { st with nextState := WState.none }
  if result < 0 then
    let step := onCacheWriteFailure st1
    (st1.writeLen, step.1, step.2)
  else (st1.writeLen, st1, [])

/-- Resumption of `DoLoop` at `NETWORK_READ_COMPLETE` (via `OnIOComplete`):
`result` is what the network transaction reported, `netBytes` the bytes it
placed in `read_buf_`, `cacheRv` the count the disk-entry content write
reports, `checksumMatches` the verdict of `ResponseChecksumMatches`, and
`markRv` the result of the MARK metadata write. -/
def completeNetworkRead (st : WritersState) (result : Int) (netBytes : List Nat)
    (cacheRv : Int) (checksumMatches : Bool) (markRv : Int) :
    Int × WritersState × List WEvent :=
  let st0 := { st with readBufContent := netBytes }
  if result < 0 then
    let st1 := { st0 with nextState := WState.none }
    let step := onNetworkReadFailure st1 result
    (result, step.1, step.2)
  else
    let st1 := { st0 with nextState := WState.cacheWriteData }
    let step1 := doCacheWriteData st1 result cacheRv
    let step2 := doCacheWriteDataComplete step1.2.1 step1.1 checksumMatches
    if step2.2.1.nextState = WState.markSKEUnusable then
      let step3 := doMarkSKEUnusable step2.2.1
      let step4 := doMarkSKEUnusableComplete step3.1 markRv
      (step4.1, step4.2.1, step1.2.2 ++ step2.2.2 ++ step3.2 ++ step4.2.2)
    else (step2.1, step2.2.1, step1.2.2 ++ step2.2.2)

/-- `Read`: with a cycle in flight the caller is queued in
`waiting_for_read_` and told to wait; otherwise it becomes the active
consumer and a new cycle starts (pending when the network read is
asynchronous, else running to completion). -/
def read (st : WritersState) (t : Txn) (bufLen : Nat) (netRv : Int) (netBytes : List Nat)
    (cacheRv : Int) (checksumMatches : Bool) (markRv : Int) :
    Int × WritersState × List WEvent :=
  if st.nextState ≠ WState.none then
    (ERR_IO_PENDING,
      { st with waitingForRead := st.waitingForRead ++ [(t, ⟨bufLen⟩)] }, [])
  else
    let st1 := { st with activeTransaction := some t, readBufLen := bufLen,
                         nextState := WState.networkRead }
    let st2 := { st1 with nextState := WState.networkReadComplete }
    if ¬ st2.networkTransaction then
      completeNetworkRead st2 ERR_FAILED netBytes cacheRv checksumMatches markRv
    else if netRv = ERR_IO_PENDING then (ERR_IO_PENDING, st2, [])
    else completeNetworkRead st2 netRv netBytes cacheRv checksumMatches markRv

/-- `StopCaching`. -/
def stopCaching (st : WritersState) (keepEntry : Bool) : Bool × WritersState × List WEvent :=
  if st.allWriters.length ≠ 1 then (false, st, [])
  else
    let st1 := { st with networkReadOnly := true }
    if ¬ keepEntry then (true, { st1 with shouldKeepEntry := false }, [.doomEntry])
    else (true, st1, [])

/-- A disk-entry CONTENT write (the writes that `network_read_only_`
suppresses); metadata writes (truncation, MARK) are distinct events. -/
def isCacheContentWrite : WEvent → Bool
  | .cacheWrite _ _ => true
  | .partialCacheWrite _ => true
  | _ => false

end Writers


namespace Writers

/-- Events emitted by the failure/fan-out plumbing: everything except disk
content writes and the truncation write. -/
def plumbingEvent : WEvent → Bool
  | .cacheWrite _ _ => false
  | .partialCacheWrite _ => false
  | .truncateEntryWrite => false
  | _ => true

theorem plumbing_not_contentWrite {e : WEvent} (h : plumbingEvent e = true) :
    isCacheContentWrite e = false := by
  cases e <;> simp_all [plumbingEvent, isCacheContentWrite]

theorem plumbing_not_truncate {e : WEvent} (h : plumbingEvent e = true) :
    e ≠ WEvent.truncateEntryWrite := by
  cases e <;> simp_all [plumbingEvent]

theorem eraseTransaction_facts (st : WritersState) (t : Txn) (r : Int) :
    (eraseTransaction st t r).1.allWriters =
        st.allWriters.filter (fun p => !(decide (p.1 = t))) ∧
      (eraseTransaction st t r).1.activeTransaction =
        (if st.activeTransaction = some t then none else st.activeTransaction) ∧
      (eraseTransaction st t r).1.waitingForRead =
        (if st.activeTransaction = some t then st.waitingForRead
         else st.waitingForRead.filter (fun p => !(decide (p.1 = t)))) ∧
      (eraseTransaction st t r).1.shouldKeepEntry = st.shouldKeepEntry ∧
      (eraseTransaction st t r).1.doNotTruncate = st.doNotTruncate ∧
      (eraseTransaction st t r).1.responseInfoTruncation = st.responseInfoTruncation ∧
      (eraseTransaction st t r).1.diskDataSize = st.diskDataSize ∧
      (eraseTransaction st t r).1.readBufContent = st.readBufContent ∧
      (eraseTransaction st t r).1.writeLen = st.writeLen ∧
      (eraseTransaction st t r).1.networkReadOnly = st.networkReadOnly ∧
      (eraseTransaction st t r).1.netRespContentLength = st.netRespContentLength ∧
      (eraseTransaction st t r).1.checksum = st.checksum ∧
      (eraseTransaction st t r).1.nextState = st.nextState ∧
      ∀ e ∈ (eraseTransaction st t r).2, plumbingEvent e = true := by
  unfold eraseTransaction updatePriority
  dsimp only
  repeat' split
  all_goals simp_all [plumbingEvent]

theorem completeWaitingLoop_facts (result : Int) :
    ∀ (l : List (Txn × WaitingForRead)) (st : WritersState),
      (completeWaitingLoop result st l).1.shouldKeepEntry = st.shouldKeepEntry ∧
        (completeWaitingLoop result st l).1.doNotTruncate = st.doNotTruncate ∧
        (completeWaitingLoop result st l).1.responseInfoTruncation = st.responseInfoTruncation ∧
        (completeWaitingLoop result st l).1.diskDataSize = st.diskDataSize ∧
        (completeWaitingLoop result st l).1.readBufContent = st.readBufContent ∧
        (completeWaitingLoop result st l).1.writeLen = st.writeLen ∧
        (completeWaitingLoop result st l).1.networkReadOnly = st.networkReadOnly ∧
        (completeWaitingLoop result st l).1.netRespContentLength = st.netRespContentLength ∧
        (completeWaitingLoop result st l).1.checksum = st.checksum ∧
        (completeWaitingLoop result st l).1.nextState = st.nextState ∧
        ∀ e ∈ (completeWaitingLoop result st l).2, plumbingEvent e = true := by
  intro l
  induction l with
  | nil =>
    intro st
    refine ⟨rfl, rfl, rfl, rfl, rfl, rfl, rfl, rfl, rfl, rfl, ?_⟩
    intro e he
    simp [completeWaitingLoop] at he
  | cons hd rest ih =>
    intro st
    obtain ⟨t, w⟩ := hd
    simp only [completeWaitingLoop]
    by_cases hres : result ≤ 0
    · have herase := eraseTransaction_facts
        { st with waitingForRead := st.waitingForRead.filter (fun p => !(decide (p.1 = t))) } t result
      rw [if_pos hres]
      have ihrec := ih ((eraseTransaction
        { st with waitingForRead := st.waitingForRead.filter (fun p => !(decide (p.1 = t))) } t result).1)
      refine ⟨?_, ?_, ?_, ?_, ?_, ?_, ?_, ?_, ?_, ?_, ?_⟩
      · rw [ihrec.1, herase.2.2.2.1]
      · rw [ihrec.2.1, herase.2.2.2.2.1]
      · rw [ihrec.2.2.1, herase.2.2.2.2.2.1]
      · rw [ihrec.2.2.2.1, herase.2.2.2.2.2.2.1]
      · rw [ihrec.2.2.2.2.1, herase.2.2.2.2.2.2.2.1]
      · rw [ihrec.2.2.2.2.2.1, herase.2.2.2.2.2.2.2.2.1]
      · rw [ihrec.2.2.2.2.2.2.1, herase.2.2.2.2.2.2.2.2.2.1]
      · rw [ihrec.2.2.2.2.2.2.2.1, herase.2.2.2.2.2.2.2.2.2.2.1]
      · rw [ihrec.2.2.2.2.2.2.2.2.1, herase.2.2.2.2.2.2.2.2.2.2.2.1]
      · rw [ihrec.2.2.2.2.2.2.2.2.2.1, herase.2.2.2.2.2.2.2.2.2.2.2.2.1]
      · intro e he
        rw [List.mem_append, List.mem_append] at he
        rcases he with (he | he) | he
        · split at he
          · simp only [List.mem_cons, List.not_mem_nil, or_false] at he
            rcases he with rfl | rfl <;> rfl
          · simp only [List.mem_singleton] at he
            subst he
            rfl
        · exact herase.2.2.2.2.2.2.2.2.2.2.2.2.2 e he
        · exact ihrec.2.2.2.2.2.2.2.2.2.2 e he
    · rw [if_neg hres]
      dsimp only
      have ihrec := ih { st with waitingForRead := st.waitingForRead.filter (fun p => !(decide (p.1 = t))) }
      refine ⟨?_, ?_, ?_, ?_, ?_, ?_, ?_, ?_, ?_, ?_, ?_⟩
      · rw [ihrec.1]
      · rw [ihrec.2.1]
      · rw [ihrec.2.2.1]
      · rw [ihrec.2.2.2.1]
      · rw [ihrec.2.2.2.2.1]
      · rw [ihrec.2.2.2.2.2.1]
      · rw [ihrec.2.2.2.2.2.2.1]
      · rw [ihrec.2.2.2.2.2.2.2.1]
      · rw [ihrec.2.2.2.2.2.2.2.2.1]
      · rw [ihrec.2.2.2.2.2.2.2.2.2.1]
      · intro e he
        rw [List.mem_append, List.mem_append] at he
        rcases he with (he | he) | he
        · split at he
          · simp only [List.mem_cons, List.not_mem_nil, or_false] at he
            rcases he with rfl | rfl <;> rfl
          · simp only [List.mem_singleton] at he
            subst he
            rfl
        · simp at he
        · exact ihrec.2.2.2.2.2.2.2.2.2.2 e he

end Writers


namespace Writers

/-- The state fields that the failure/fan-out plumbing never touches. -/
def sameFrame (a b : WritersState) : Prop :=
  a.shouldKeepEntry = b.shouldKeepEntry ∧ a.doNotTruncate = b.doNotTruncate ∧
    a.responseInfoTruncation = b.responseInfoTruncation ∧ a.diskDataSize = b.diskDataSize ∧
    a.readBufContent = b.readBufContent ∧ a.writeLen = b.writeLen ∧
    a.networkReadOnly = b.networkReadOnly ∧ a.netRespContentLength = b.netRespContentLength ∧
    a.checksum = b.checksum ∧ a.nextState = b.nextState

theorem sameFrame_refl (a : WritersState) : sameFrame a a :=
  ⟨rfl, rfl, rfl, rfl, rfl, rfl, rfl, rfl, rfl, rfl⟩

theorem sameFrame_trans {a b c : WritersState} (h1 : sameFrame a b) (h2 : sameFrame b c) :
    sameFrame a c := by
  obtain ⟨x1, x2, x3, x4, x5, x6, x7, x8, x9, x10⟩ := h1
  obtain ⟨y1, y2, y3, y4, y5, y6, y7, y8, y9, y10⟩ := h2
  exact ⟨x1.trans y1, x2.trans y2, x3.trans y3, x4.trans y4, x5.trans y5, x6.trans y6,
    x7.trans y7, x8.trans y8, x9.trans y9, x10.trans y10⟩

theorem eraseTransaction_frame (st : WritersState) (t : Txn) (r : Int) :
    sameFrame (eraseTransaction st t r).1 st := by
  obtain ⟨-, -, -, h4, h5, h6, h7, h8, h9, h10, h11, h12, h13, -⟩ := eraseTransaction_facts st t r
  exact ⟨h4, h5, h6, h7, h8, h9, h10, h11, h12, h13⟩

theorem completeWaitingLoop_frame (result : Int) (l : List (Txn × WaitingForRead))
    (st : WritersState) : sameFrame (completeWaitingLoop result st l).1 st := by
  obtain ⟨h1, h2, h3, h4, h5, h6, h7, h8, h9, h10, -⟩ := completeWaitingLoop_facts result l st
  exact ⟨h1, h2, h3, h4, h5, h6, h7, h8, h9, h10⟩

theorem removeIdleWritersLoop_facts (result : Int) :
    ∀ (l : List (Txn × TransactionInfo)) (st : WritersState),
      sameFrame (removeIdleWritersLoop result st l).1 st ∧
        (removeIdleWritersLoop result st l).1.activeTransaction = st.activeTransaction ∧
        (∀ p ∈ (removeIdleWritersLoop result st l).1.allWriters,
          p ∈ st.allWriters ∧ (p ∈ l → st.activeTransaction = some p.1)) ∧
        ∀ e ∈ (removeIdleWritersLoop result st l).2, plumbingEvent e = true := by
  intro l
  induction l with
  | nil =>
    intro st
    refine ⟨sameFrame_refl st, rfl, ?_, ?_⟩
    · intro p hp
      exact ⟨hp, fun hin => absurd hin (List.not_mem_nil p)⟩
    · intro e he
      simp [removeIdleWritersLoop] at he
  | cons hd rest ih =>
    intro st
    obtain ⟨t, i⟩ := hd
    simp only [removeIdleWritersLoop]
    by_cases hat : st.activeTransaction = some t
    · rw [if_pos hat]
      obtain ⟨ihf, iha, ihm, ihe⟩ := ih st
      refine ⟨ihf, iha, ?_, ihe⟩
      intro p hp
      obtain ⟨hmem, hcond⟩ := ihm p hp
      refine ⟨hmem, ?_⟩
      intro hin
      rcases List.mem_cons.mp hin with heq | hin2
      · rw [heq]
        exact hat
      · exact hcond hin2
    · rw [if_neg hat]
      obtain ⟨e1, e2, e3, e4, e5, e6, e7, e8, e9, e10, e11, e12, e13, e14⟩ :=
        eraseTransaction_facts st t result
      obtain ⟨ihf, iha, ihm, ihe⟩ := ih (eraseTransaction st t result).1
      refine ⟨sameFrame_trans ihf (eraseTransaction_frame st t result), ?_, ?_, ?_⟩
      · rw [iha, e2, if_neg hat]
      · intro p hp
        obtain ⟨hmem, hcond⟩ := ihm p hp
        rw [e1] at hmem
        have hpne : ¬ (p.1 = t) := by
          have := List.of_mem_filter hmem
          simpa using this
        refine ⟨List.mem_of_mem_filter hmem, ?_⟩
        intro hin
        rcases List.mem_cons.mp hin with heq | hin2
        · exfalso
          apply hpne
          rw [heq]
        · have := hcond hin2
          rw [iha.symm.trans iha, e2, if_neg hat] at this
          exact this
      · intro e he
        rcases List.mem_append.mp he with he1 | he2
        · exact e14 e he1
        · exact ihe e he2

theorem processFailure_facts (st : WritersState) (error : Int) :
    sameFrame (processFailure st error).1 st ∧
      (∀ p ∈ (processFailure st error).1.allWriters,
        (processFailure st error).1.activeTransaction = some p.1) ∧
      ∀ e ∈ (processFailure st error).2, plumbingEvent e = true := by
  unfold processFailure completeWaitingForReadTransactions removeIdleWriters
  have wf1 := completeWaitingLoop_frame error st.waitingForRead st
  have wf2 := (completeWaitingLoop_facts error st.waitingForRead st).2.2.2.2.2.2.2.2.2.2
  obtain ⟨rf, ra, rm, re⟩ :=
    removeIdleWritersLoop_facts error
      (completeWaitingLoop error st st.waitingForRead).1.allWriters
      (completeWaitingLoop error st st.waitingForRead).1
  refine ⟨sameFrame_trans rf wf1, ?_, ?_⟩
  · intro p hp
    obtain ⟨hmem, hcond⟩ := rm p hp
    rw [ra]
    exact hcond hmem
  · intro e he
    rcases List.mem_append.mp he with he1 | he2
    · exact wf2 e he1
    · exact re e he2

theorem shouldTruncate_state (st : WritersState) :
    (shouldTruncate st).2.allWriters = st.allWriters ∧
      (shouldTruncate st).2.waitingForRead = st.waitingForRead ∧
      (shouldTruncate st).2.activeTransaction = st.activeTransaction ∧
      (shouldTruncate st).2.networkReadOnly = st.networkReadOnly ∧
      (shouldTruncate st).2.writeLen = st.writeLen ∧
      (shouldTruncate st).2.haveCacheCallback = st.haveCacheCallback := by
  unfold shouldTruncate
  repeat' split
  all_goals simp

theorem shouldTruncate_congr {a b : WritersState}
    (h1 : a.shouldKeepEntry = b.shouldKeepEntry) (h2 : a.doNotTruncate = b.doNotTruncate)
    (h3 : a.responseInfoTruncation = b.responseInfoTruncation)
    (h4 : a.diskDataSize = b.diskDataSize) :
    (shouldTruncate a).1 = (shouldTruncate b).1 := by
  unfold shouldTruncate
  rw [h1, h2, h3, h4]
  repeat' split
  all_goals rfl

end Writers


namespace Writers

/-- When the read result is non-negative, every transaction waiting for the
read gets its buffer filled with `min(read_buf_len, result)` bytes of the
shared buffer and its callback posted with that count. -/
theorem completeWaitingLoop_events_nonneg (result : Int) (hres : 0 ≤ result) :
    ∀ (l : List (Txn × WaitingForRead)) (st : WritersState) (t : Txn) (w : WaitingForRead),
      (t, w) ∈ l →
        WEvent.bufferFilled t.id (st.readBufContent.take (min w.readBufLen result.toNat)) ∈
            (completeWaitingLoop result st l).2 ∧
          WEvent.callbackPosted t.id (Int.ofNat (min w.readBufLen result.toNat)) ∈
            (completeWaitingLoop result st l).2 := by
  intro l
  induction l with
  | nil => intro st t w h; cases h
  | cons hd rest ih =>
    intro st t w h
    obtain ⟨t0, w0⟩ := hd
    simp only [completeWaitingLoop, if_pos hres]
    rcases List.mem_cons.mp h with heq | hmem
    · rw [Prod.mk.injEq] at heq
      obtain ⟨ht, hw⟩ := heq
      subst ht
      subst hw
      exact ⟨List.mem_append_left _ (List.mem_append_left _ (List.mem_cons_self _ _)),
        List.mem_append_left _
          (List.mem_append_left _ (List.mem_cons_of_mem _ (List.mem_cons_self _ _)))⟩
    · by_cases hle : result ≤ 0
      · simp only [if_pos hle]
        obtain ⟨ihb, ihc⟩ :=
          ih (eraseTransaction
              { st with waitingForRead :=
                  st.waitingForRead.filter (fun p => !(decide (p.1 = t0))) } t0 result).1 t w hmem
        rw [(eraseTransaction_frame _ _ _).2.2.2.2.1] at ihb
        dsimp only at ihb
        exact ⟨List.mem_append_right _ ihb, List.mem_append_right _ ihc⟩
      · simp only [if_neg hle]
        obtain ⟨ihb, ihc⟩ :=
          ih { st with waitingForRead :=
                  st.waitingForRead.filter (fun p => !(decide (p.1 = t0))) } t w hmem
        dsimp only at ihb ihc ⊢
        exact ⟨List.mem_append_right _ ihb, List.mem_append_right _ ihc⟩

/-- When the read result is negative, every waiting transaction's callback is
posted with that error. -/
theorem completeWaitingLoop_events_neg (result : Int) (hres : result < 0) :
    ∀ (l : List (Txn × WaitingForRead)) (st : WritersState) (t : Txn) (w : WaitingForRead),
      (t, w) ∈ l →
        WEvent.callbackPosted t.id result ∈ (completeWaitingLoop result st l).2 := by
  intro l
  induction l with
  | nil => intro st t w h; cases h
  | cons hd rest ih =>
    intro st t w h
    obtain ⟨t0, w0⟩ := hd
    have hnot : ¬ (0 ≤ result) := not_le.mpr hres
    simp only [completeWaitingLoop, if_neg hnot, if_pos (le_of_lt hres)]
    rcases List.mem_cons.mp h with heq | hmem
    · rw [Prod.mk.injEq] at heq
      obtain ⟨ht, hw⟩ := heq
      subst ht
      exact List.mem_append_left _ (List.mem_append_left _ (List.mem_cons_self _ _))
    · have ihc :=
        ih (eraseTransaction
            { st with waitingForRead :=
                st.waitingForRead.filter (fun p => !(decide (p.1 = t0))) } t0 result).1 t w hmem
      exact List.mem_append_right _ ihc

end Writers


namespace Writers

def baseResp : RespInfo :=
  { contentLength := 100, hasStrongValidators := true, hasAcceptRangesNone := false,
    hasContentEncoding := false, singleKeyedUnusable := false }

def txnA : Txn := { id := 1, priority := 2 }

def txnB : Txn := { id := 2, priority := 3 }

def infoA : TransactionInfo := { isPartial := false, truncated := false, responseInfo := baseResp }

/-- A quiescent session used as the base of the concrete witnesses. -/
def baseW : WritersState :=
  { nextState := WState.none, allWriters := [], waitingForRead := [],
    activeTransaction := Option.none, networkTransaction := true, checksum := false,
    networkReadOnly := false, shouldKeepEntry := true, isExclusive := false,
    priority := 0, doNotTruncate := false, responseInfoTruncation := baseResp,
    readBufLen := 0, writeLen := 0, readBufContent := [], diskDataSize := 4,
    netRespContentLength := 100, haveCacheCallback := false }

def stC9a : WritersState := { baseW with allWriters := [(txnA, infoA), (txnB, infoA)] }

def stC9b : WritersState := { baseW with allWriters := [(txnA, infoA)] }

/-- C9: with more than one attached transaction `StopCaching` returns false
and leaves the session untouched (in particular `network_read_only_` and
`should_keep_entry_` keep their values); with exactly one it returns true,
enters network-read-only mode, and clears `should_keep_entry_` and dooms
the entry exactly when `keep_entry` is false. -/
theorem stopCaching_spec (st : WritersState) (keepEntry : Bool) :
    (1 < st.allWriters.length → stopCaching st keepEntry = (false, st, [])) ∧
      (st.allWriters.length = 1 →
        stopCaching st keepEntry =
          (true,
            if keepEntry then { st with networkReadOnly := true }
            else { st with networkReadOnly := true, shouldKeepEntry := false },
            if keepEntry then [] else [WEvent.doomEntry])) := by
  constructor
  · intro h
    have hne : st.allWriters.length ≠ 1 := by omega
    simp only [stopCaching, if_pos hne]
  · intro h
    have hne : ¬ (st.allWriters.length ≠ 1) := by omega
    simp only [stopCaching, if_neg hne]
    cases keepEntry <;> simp

theorem stopCaching_spec_witness :
    stopCaching stC9a false = (false, stC9a, []) ∧
      stopCaching stC9b false =
        (true, { stC9b with networkReadOnly := true, shouldKeepEntry := false },
          [WEvent.doomEntry]) := by
  constructor
  · exact (stopCaching_spec stC9a false).1 (by decide)
  · have h := (stopCaching_spec stC9b false).2 (by decide)
    simpa using h

end Writers


namespace Writers

def stC8 : WritersState :=
  { baseW with
      allWriters := [(txnA, infoA), (txnB, infoA)],
      waitingForRead := [(txnB, { readBufLen := 3 })],
      activeTransaction := some txnA,
      nextState := WState.none }

/-- C8: when the network read fails with `E < 0`, every consumer queued in
`waiting_for_read_` has its callback posted with `E`, the session ends with
no attached writers (queued, idle and active consumers are all removed),
and the entry is truncated exactly when the truncation-eligibility
predicate holds of the session's keep/truncate context. -/
theorem onNetworkReadFailure_spec (st : WritersState) (E : Int) (hE : E < 0) :
    (∀ t w, (t, w) ∈ st.waitingForRead →
        WEvent.callbackPosted t.id E ∈ (onNetworkReadFailure st E).2) ∧
      (onNetworkReadFailure st E).1.allWriters = [] ∧
      (WEvent.truncateEntryWrite ∈ (onNetworkReadFailure st E).2 ↔
        (shouldTruncate st).1 = true) := by
  obtain ⟨pf_frame, pf_act, pf_ev⟩ := processFailure_facts st E
  refine ⟨?_, ?_⟩
  · intro t w hw
    have h1 : WEvent.callbackPosted t.id E ∈ (processFailure st E).2 :=
      List.mem_append_left _ (completeWaitingLoop_events_neg E hE st.waitingForRead st t w hw)
    exact List.mem_append_left _ (List.mem_append_left _ (List.mem_append_left _ h1))
  simp only [onNetworkReadFailure]
  cases hact : (processFailure st E).1.activeTransaction with
  | none =>
    dsimp only
    have hnil : (processFailure st E).1.allWriters = [] := by
      rw [List.eq_nil_iff_forall_not_mem]
      intro p hp
      have h2 := pf_act p hp
      rw [hact] at h2
      simp at h2
    have htr : (shouldTruncate
          ({ (processFailure st E).1 with activeTransaction := Option.none })).1 =
        (shouldTruncate st).1 :=
      shouldTruncate_congr pf_frame.1 pf_frame.2.1 pf_frame.2.2.1 pf_frame.2.2.2.1
    constructor
    · split
      · exact ((shouldTruncate_state _).1).trans hnil
      · exact ((shouldTruncate_state _).1).trans hnil
    · rw [← htr]
      by_cases htc : (shouldTruncate
          ({ (processFailure st E).1 with activeTransaction := Option.none })).1 = true
      · simp only [if_pos htc, truncateEntry, setCacheCallback]
        simp [htc]
      · simp only [if_neg htc, setCacheCallback, List.append_nil, List.nil_append]
        apply iff_of_false ?_ htc
        intro hmem
        rcases List.mem_append.mp hmem with h1 | h2
        · exact plumbing_not_truncate (pf_ev _ h1) rfl
        · simp at h2
  | some t =>
    dsimp only
    obtain ⟨e1, -, -, -, -, -, -, -, -, -, -, -, -, e14⟩ :=
      eraseTransaction_facts (processFailure st E).1 t E
    have hnil : ((eraseTransaction (processFailure st E).1 t E).1).allWriters = [] := by
      rw [e1, List.filter_eq_nil_iff]
      intro p hp
      have h2 := pf_act p hp
      rw [hact] at h2
      injection h2 with h3
      simp [← h3]
    have hfr : sameFrame (eraseTransaction (processFailure st E).1 t E).1 st :=
      sameFrame_trans (eraseTransaction_frame _ _ _) pf_frame
    have htr : (shouldTruncate
          ({ (eraseTransaction (processFailure st E).1 t E).1 with
              activeTransaction := Option.none })).1 =
        (shouldTruncate st).1 :=
      shouldTruncate_congr hfr.1 hfr.2.1 hfr.2.2.1 hfr.2.2.2.1
    constructor
    · split
      · exact ((shouldTruncate_state _).1).trans hnil
      · exact ((shouldTruncate_state _).1).trans hnil
    · rw [← htr]
      by_cases htc : (shouldTruncate
          ({ (eraseTransaction (processFailure st E).1 t E).1 with
              activeTransaction := Option.none })).1 = true
      · simp only [if_pos htc, truncateEntry, setCacheCallback]
        simp [htc]
      · simp only [if_neg htc, setCacheCallback, List.append_nil, List.nil_append]
        apply iff_of_false ?_ htc
        intro hmem
        rcases List.mem_append.mp hmem with h12 | h3
        · rcases List.mem_append.mp h12 with h1 | h2
          · exact plumbing_not_truncate (pf_ev _ h1) rfl
          · exact plumbing_not_truncate (e14 _ h2) rfl
        · simp at h3

theorem onNetworkReadFailure_spec_witness :
    (-2 : Int) < 0 ∧
      ((∀ t w, (t, w) ∈ stC8.waitingForRead →
          WEvent.callbackPosted t.id (-2) ∈ (onNetworkReadFailure stC8 (-2)).2) ∧
        (onNetworkReadFailure stC8 (-2)).1.allWriters = [] ∧
        (WEvent.truncateEntryWrite ∈ (onNetworkReadFailure stC8 (-2)).2 ↔
          (shouldTruncate stC8).1 = true)) :=
  ⟨by decide, onNetworkReadFailure_spec stC8 (-2) (by decide)⟩

end Writers


namespace Writers

theorem onCacheWriteFailure_facts (st : WritersState) :
    (onCacheWriteFailure st).1.networkReadOnly = true ∧
      (onCacheWriteFailure st).1.shouldKeepEntry = false ∧
      (onCacheWriteFailure st).1.writeLen = st.writeLen ∧
      ∀ e ∈ (onCacheWriteFailure st).2, isCacheContentWrite e = false := by
  obtain ⟨pf_frame, -, pf_ev⟩ := processFailure_facts st ERR_CACHE_WRITE_FAILURE
  simp only [onCacheWriteFailure]
  split
  · refine ⟨rfl, rfl, pf_frame.2.2.2.2.2.1, ?_⟩
    intro e he
    rcases List.mem_append.mp he with h1 | h2
    · exact plumbing_not_contentWrite (pf_ev _ h1)
    · simp only [setCacheCallback] at h2
      simp at h2
      subst h2
      rfl
  · refine ⟨rfl, rfl, pf_frame.2.2.2.2.2.1, ?_⟩
    intro e he
    rcases List.mem_append.mp he with h1 | h2
    · exact plumbing_not_contentWrite (pf_ev _ h1)
    · simp at h2
      subst h2
      rfl

theorem doCacheWriteData_skip (st : WritersState) (n rv : Int) (h : st.networkReadOnly = true) :
    doCacheWriteData st n rv =
      (n, { st with nextState := WState.cacheWriteDataComplete, writeLen := n }, []) := by
  simp [doCacheWriteData, h]

theorem onNetworkReadFailure_plumbing (st : WritersState) (r : Int) :
    (onNetworkReadFailure st r).1.networkReadOnly = st.networkReadOnly ∧
      ∀ e ∈ (onNetworkReadFailure st r).2, isCacheContentWrite e = false := by
  obtain ⟨pf_frame, -, pf_ev⟩ := processFailure_facts st r
  simp only [onNetworkReadFailure]
  cases hact : (processFailure st r).1.activeTransaction with
  | none =>
    dsimp only
    constructor
    · split
      · exact ((shouldTruncate_state _).2.2.2.1).trans pf_frame.2.2.2.2.2.2.1
      · exact ((shouldTruncate_state _).2.2.2.1).trans pf_frame.2.2.2.2.2.2.1
    · intro e he
      rcases List.mem_append.mp he with h12 | h4
      · rcases List.mem_append.mp h12 with h1 | h3
        · rcases List.mem_append.mp h1 with h1a | h1b
          · exact plumbing_not_contentWrite (pf_ev _ h1a)
          · simp at h1b
        · revert h3
          split
          · intro h3
            simp only [truncateEntry] at h3
            simp at h3
            subst h3
            rfl
          · intro h3
            simp at h3
      · simp only [setCacheCallback] at h4
        simp at h4
        subst h4
        rfl
  | some t =>
    dsimp only
    have hfr : sameFrame (eraseTransaction (processFailure st r).1 t r).1 st :=
      sameFrame_trans (eraseTransaction_frame _ _ _) pf_frame
    have e14 := (eraseTransaction_facts (processFailure st r).1 t r).2.2.2.2.2.2.2.2.2.2.2.2.2
    constructor
    · split
      · exact ((shouldTruncate_state _).2.2.2.1).trans hfr.2.2.2.2.2.2.1
      · exact ((shouldTruncate_state _).2.2.2.1).trans hfr.2.2.2.2.2.2.1
    · intro e he
      rcases List.mem_append.mp he with h12 | h4
      · rcases List.mem_append.mp h12 with h1 | h3
        · rcases List.mem_append.mp h1 with h1a | h1b
          · exact plumbing_not_contentWrite (pf_ev _ h1a)
          · exact plumbing_not_contentWrite (e14 _ h1b)
        · revert h3
          split
          · intro h3
            simp only [truncateEntry] at h3
            simp at h3
            subst h3
            rfl
          · intro h3
            simp at h3
      · simp only [setCacheCallback] at h4
        simp at h4
        subst h4
        rfl

end Writers


namespace Writers

theorem onDataReceived_plumbing (st : WritersState) (result : Int) :
    (onDataReceived st result).1.networkReadOnly = st.networkReadOnly ∧
      ∀ e ∈ (onDataReceived st result).2, isCacheContentWrite e = false := by
  simp only [onDataReceived]
  split
  · refine ⟨rfl, ?_⟩
    intro e he
    simp at he
  split
  · split
    · exact ⟨(onNetworkReadFailure_plumbing _ _).1, (onNetworkReadFailure_plumbing _ _).2⟩
    · cases hact : st.activeTransaction with
      | none =>
        dsimp only
        constructor
        · exact (completeWaitingLoop_facts _ _ _).2.2.2.2.2.2.1
        · intro e he
          rcases List.mem_append.mp he with h12 | h3
          · rcases List.mem_append.mp h12 with h1 | h2
            · simp at h1
            · exact plumbing_not_contentWrite
                ((completeWaitingLoop_facts _ _ _).2.2.2.2.2.2.2.2.2.2 _ h2)
          · simp only [setCacheCallback] at h3
            simp at h3
            subst h3
            rfl
      | some t =>
        dsimp only
        have e14 := (eraseTransaction_facts st t 0).2.2.2.2.2.2.2.2.2.2.2.2.2
        have efr := eraseTransaction_frame st t 0
        constructor
        · exact ((completeWaitingLoop_facts _ _ _).2.2.2.2.2.2.1).trans efr.2.2.2.2.2.2.1
        · intro e he
          rcases List.mem_append.mp he with h12 | h3
          · rcases List.mem_append.mp h12 with h1 | h2
            · exact plumbing_not_contentWrite (e14 _ h1)
            · exact plumbing_not_contentWrite
                ((completeWaitingLoop_facts _ _ _).2.2.2.2.2.2.2.2.2.2 _ h2)
          · simp only [setCacheCallback] at h3
            simp at h3
            subst h3
            rfl
  · constructor
    · exact (completeWaitingLoop_facts _ _ _).2.2.2.2.2.2.1
    · intro e he
      exact plumbing_not_contentWrite
        ((completeWaitingLoop_facts _ _ _).2.2.2.2.2.2.2.2.2.2 _ he)

end Writers


namespace Writers

theorem doCacheWriteData_readOnly_state (st : WritersState) (n rv : Int)
    (h : st.networkReadOnly = true) :
    (doCacheWriteData st n rv).2.1.networkReadOnly = true := by
  rw [doCacheWriteData_skip st n rv h]
  exact h

theorem doCacheWriteData_readOnly_ev (st : WritersState) (n rv : Int)
    (h : st.networkReadOnly = true) :
    ∀ e ∈ (doCacheWriteData st n rv).2.2, isCacheContentWrite e = false := by
  rw [doCacheWriteData_skip st n rv h]
  intro e he
  simp at he

theorem doCacheWriteDataComplete_readOnly (st : WritersState) (result : Int) (cm : Bool)
    (h : st.networkReadOnly = true) :
    (doCacheWriteDataComplete st result cm).2.1.networkReadOnly = true ∧
      ∀ e ∈ (doCacheWriteDataComplete st result cm).2.2, isCacheContentWrite e = false := by
  have key : ∀ s2 : WritersState, s2.networkReadOnly = true →
      ((if result ≠ s2.writeLen then
            (s2.writeLen, (onCacheWriteFailure s2).1, (onCacheWriteFailure s2).2)
          else
            (result, (onDataReceived s2 result).1,
              (onDataReceived s2 result).2) : Int × WritersState × List Writers.WEvent)).2.1.networkReadOnly = true ∧
        ∀ e ∈ ((if result ≠ s2.writeLen then
            (s2.writeLen, (onCacheWriteFailure s2).1, (onCacheWriteFailure s2).2)
          else
            (result, (onDataReceived s2 result).1,
              (onDataReceived s2 result).2) : Int × WritersState × List Writers.WEvent)).2.2,
          isCacheContentWrite e = false := by
    intro s2 h2
    split
    · exact ⟨(onCacheWriteFailure_facts _).1, fun e he => (onCacheWriteFailure_facts _).2.2.2 e he⟩
    · exact ⟨((onDataReceived_plumbing _ _).1).trans h2,
        fun e he => (onDataReceived_plumbing _ _).2 e he⟩
  simp only [doCacheWriteDataComplete]
  refine key _ ?_
  split
  · split
    · exact h
    · exact h
  · exact h

theorem doMarkComplete_readOnly (st : WritersState) (markRv : Int)
    (h : st.networkReadOnly = true) :
    (doMarkSKEUnusableComplete st markRv).2.1.networkReadOnly = true ∧
      ∀ e ∈ (doMarkSKEUnusableComplete st markRv).2.2, isCacheContentWrite e = false := by
  simp only [doMarkSKEUnusableComplete]
  split
  · exact ⟨(onCacheWriteFailure_facts _).1, fun e he => (onCacheWriteFailure_facts _).2.2.2 e he⟩
  · refine ⟨h, ?_⟩
    intro e he
    simp at he

theorem completeNetworkRead_readOnly (st : WritersState) (result : Int) (netBytes : List Nat)
    (cacheRv : Int) (cm : Bool) (markRv : Int) (h : st.networkReadOnly = true) :
    (completeNetworkRead st result netBytes cacheRv cm markRv).2.1.networkReadOnly = true ∧
      ∀ e ∈ (completeNetworkRead st result netBytes cacheRv cm markRv).2.2,
        isCacheContentWrite e = false := by
  simp only [completeNetworkRead]
  split
  · constructor
    · refine ((onNetworkReadFailure_plumbing _ _).1).trans ?_
      exact h
    · exact (onNetworkReadFailure_plumbing _ _).2
  · split
    · constructor
      · exact (doMarkComplete_readOnly _ markRv
          (by exact (doCacheWriteDataComplete_readOnly _ _ cm
            (by exact doCacheWriteData_readOnly_state _ result cacheRv (by exact h))).1)).1
      · intro e he
        rcases List.mem_append.mp he with h123 | h4
        · rcases List.mem_append.mp h123 with h12 | h3
          · rcases List.mem_append.mp h12 with h1 | h2
            · exact doCacheWriteData_readOnly_ev _ _ _ (by exact h) e h1
            · exact (doCacheWriteDataComplete_readOnly _ _ cm
                (by exact doCacheWriteData_readOnly_state _ result cacheRv (by exact h))).2 e h2
          · simp only [doMarkSKEUnusable] at h3
            simp at h3
            subst h3
            rfl
        · exact (doMarkComplete_readOnly _ markRv
            (by exact (doCacheWriteDataComplete_readOnly _ _ cm
              (by exact doCacheWriteData_readOnly_state _ result cacheRv (by exact h))).1)).2 e h4
    · constructor
      · exact (doCacheWriteDataComplete_readOnly _ _ cm
          (by exact doCacheWriteData_readOnly_state _ result cacheRv (by exact h))).1
      · intro e he
        rcases List.mem_append.mp he with h1 | h2
        · exact doCacheWriteData_readOnly_ev _ _ _ (by exact h) e h1
        · exact (doCacheWriteDataComplete_readOnly _ _ cm
            (by exact doCacheWriteData_readOnly_state _ result cacheRv (by exact h))).2 e h2

end Writers


namespace Writers

def stC7 : WritersState := { baseW with networkReadOnly := true, writeLen := 5 }

/-- C7: when the disk write of the body bytes completes with a count
different from `write_len_`, the session flips into permanent
network-read-only mode with `should_keep_entry_` cleared, while the active
consumer's read still returns the full `write_len_` bytes it got from the
network; and once `network_read_only_` is set, a read cycle issues no disk
content write at all and leaves the flag set, so no later cache write is
attempted for the rest of the session. -/
theorem cacheWriteFailure_spec (st : WritersState) (result n rv r cacheRv markRv : Int)
    (netBytes : List Nat) (cm cm2 : Bool) :
    (result ≠ st.writeLen →
        (doCacheWriteDataComplete st result cm).1 = st.writeLen ∧
          (doCacheWriteDataComplete st result cm).2.1.networkReadOnly = true ∧
          (doCacheWriteDataComplete st result cm).2.1.shouldKeepEntry = false) ∧
      (st.networkReadOnly = true →
        doCacheWriteData st n rv =
          (n, { st with nextState := WState.cacheWriteDataComplete, writeLen := n }, [])) ∧
      (st.networkReadOnly = true →
        (completeNetworkRead st r netBytes cacheRv cm2 markRv).2.1.networkReadOnly = true ∧
          ∀ e ∈ (completeNetworkRead st r netBytes cacheRv cm2 markRv).2.2,
            isCacheContentWrite e = false) := by
  refine ⟨?_, fun h => doCacheWriteData_skip st n rv h,
    fun h => completeNetworkRead_readOnly st r netBytes cacheRv cm2 markRv h⟩
  intro hne
  have key : ∀ s2 : WritersState, s2.writeLen = st.writeLen →
      ((if result ≠ s2.writeLen then
            (s2.writeLen, (onCacheWriteFailure s2).1, (onCacheWriteFailure s2).2)
          else
            (result, (onDataReceived s2 result).1, (onDataReceived s2 result).2) :
          Int × WritersState × List Writers.WEvent)).1 = st.writeLen ∧
        ((if result ≠ s2.writeLen then
            (s2.writeLen, (onCacheWriteFailure s2).1, (onCacheWriteFailure s2).2)
          else
            (result, (onDataReceived s2 result).1, (onDataReceived s2 result).2) :
          Int × WritersState × List Writers.WEvent)).2.1.networkReadOnly = true ∧
        ((if result ≠ s2.writeLen then
            (s2.writeLen, (onCacheWriteFailure s2).1, (onCacheWriteFailure s2).2)
          else
            (result, (onDataReceived s2 result).1, (onDataReceived s2 result).2) :
          Int × WritersState × List Writers.WEvent)).2.1.shouldKeepEntry = false := by
    intro s2 hw
    have hcond : result ≠ s2.writeLen := by
      rw [hw]
      exact hne
    rw [if_pos hcond]
    exact ⟨hw, (onCacheWriteFailure_facts _).1, (onCacheWriteFailure_facts _).2.1⟩
  simp only [doCacheWriteDataComplete]
  refine key _ ?_
  split
  · split
    · rfl
    · rfl
  · rfl

theorem cacheWriteFailure_spec_witness :
    ((doCacheWriteDataComplete stC7 3 false).1 = stC7.writeLen ∧
        (doCacheWriteDataComplete stC7 3 false).2.1.networkReadOnly = true ∧
        (doCacheWriteDataComplete stC7 3 false).2.1.shouldKeepEntry = false) ∧
      doCacheWriteData stC7 4 9 =
        (4, { stC7 with nextState := WState.cacheWriteDataComplete, writeLen := 4 }, []) ∧
      ((completeNetworkRead stC7 2 [7, 8] 9 false 0).2.1.networkReadOnly = true ∧
        ∀ e ∈ (completeNetworkRead stC7 2 [7, 8] 9 false 0).2.2, isCacheContentWrite e = false) :=
  ⟨(cacheWriteFailure_spec stC7 3 4 9 2 9 0 [7, 8] false false).1 (by decide),
    (cacheWriteFailure_spec stC7 3 4 9 2 9 0 [7, 8] false false).2.1 (by decide),
    (cacheWriteFailure_spec stC7 3 4 9 2 9 0 [7, 8] false false).2.2 (by decide)⟩

end Writers


namespace Writers

theorem activeIsPartial_congr {a b : WritersState}
    (h1 : a.activeTransaction = b.activeTransaction) (h2 : a.allWriters = b.allWriters) :
    activeIsPartial a = activeIsPartial b := by
  unfold activeIsPartial findWriter
  rw [h1, h2]

/-- When the disk write is asked to report exactly the network byte count,
`DoCacheWriteData` returns that count and the state with `write_len_`
recorded, on every branch. -/
theorem doCacheWriteData_shape (st : WritersState) (n : Int) :
    doCacheWriteData st n n =
      (n, { st with nextState := WState.cacheWriteDataComplete, writeLen := n },
        (doCacheWriteData st n n).2.2) := by
  simp only [doCacheWriteData]
  split
  · rfl
  · split
    · rfl
    · rfl

theorem onDataReceived_waiting_events (st : WritersState) (N : Int) (hN : 0 ≤ N)
    (hwl : st.writeLen = N) (hpart : activeIsPartial st = false) :
    ∀ t w, (t, w) ∈ st.waitingForRead →
      WEvent.bufferFilled t.id (st.readBufContent.take (min w.readBufLen N.toNat)) ∈
          (onDataReceived st N).2 ∧
        WEvent.callbackPosted t.id (Int.ofNat (min w.readBufLen N.toNat)) ∈
          (onDataReceived st N).2 := by
  intro t w hw
  simp only [onDataReceived, hpart, Bool.false_eq_true, if_false]
  by_cases h0 : N = 0
  · subst h0
    rw [if_pos rfl]
    split
    · have hm := completeWaitingLoop_events_nonneg 0 (le_refl 0) st.waitingForRead st t w hw
      constructor
      · exact List.mem_append_left _ (List.mem_append_left _ (List.mem_append_left _
          (List.mem_append_left _ hm.1)))
      · exact List.mem_append_left _ (List.mem_append_left _ (List.mem_append_left _
          (List.mem_append_left _ hm.2)))
    · cases hact : st.activeTransaction with
      | none =>
        dsimp only
        have hres : (0 : Int) ≤
            ({ st with activeTransaction := Option.none } : WritersState).writeLen :=
          le_of_eq hwl.symm
        have hm := completeWaitingLoop_events_nonneg
          ({ st with activeTransaction := Option.none } : WritersState).writeLen hres
          ({ st with activeTransaction := Option.none } : WritersState).waitingForRead
          ({ st with activeTransaction := Option.none } : WritersState) t w hw
        have h2 : ({ st with activeTransaction := Option.none } : WritersState).writeLen.toNat =
            (0 : Int).toNat := by
          rw [show ({ st with activeTransaction := Option.none } : WritersState).writeLen =
            (0 : Int) from hwl]
        rw [h2] at hm
        constructor
        · exact List.mem_append_left _ (List.mem_append_right _ hm.1)
        · exact List.mem_append_left _ (List.mem_append_right _ hm.2)
      | some t3 =>
        dsimp only
        obtain ⟨-, -, e3, -, -, -, -, e8, e9, -, -, -, -, -⟩ := eraseTransaction_facts st t3 0
        rw [hact, if_pos rfl] at e3
        have hw2 : (t, w) ∈
            ({ (eraseTransaction st t3 0).1 with activeTransaction := Option.none } :
              WritersState).waitingForRead := by
          show (t, w) ∈ ((eraseTransaction st t3 0).1).waitingForRead
          rw [e3]
          exact hw
        have hres : (0 : Int) ≤
            ({ (eraseTransaction st t3 0).1 with activeTransaction := Option.none } :
              WritersState).writeLen :=
          le_of_eq (e9.trans hwl).symm
        have hm := completeWaitingLoop_events_nonneg
          ({ (eraseTransaction st t3 0).1 with activeTransaction := Option.none } :
            WritersState).writeLen hres
          ({ (eraseTransaction st t3 0).1 with activeTransaction := Option.none } :
            WritersState).waitingForRead
          ({ (eraseTransaction st t3 0).1 with activeTransaction := Option.none } : WritersState)
          t w hw2
        have h2 : ({ (eraseTransaction st t3 0).1 with activeTransaction := Option.none } :
            WritersState).writeLen.toNat = (0 : Int).toNat := by
          rw [show ({ (eraseTransaction st t3 0).1 with activeTransaction := Option.none } :
            WritersState).writeLen = (0 : Int) from e9.trans hwl]
        have h3 : ({ (eraseTransaction st t3 0).1 with activeTransaction := Option.none } :
            WritersState).readBufContent = st.readBufContent := e8
        rw [h2, h3] at hm
        constructor
        · exact List.mem_append_left _ (List.mem_append_right _ hm.1)
        · exact List.mem_append_left _ (List.mem_append_right _ hm.2)
  · rw [if_neg h0]
    rw [hwl]
    have hm := completeWaitingLoop_events_nonneg N hN st.waitingForRead st t w hw
    exact ⟨hm.1, hm.2⟩

end Writers


namespace Writers

theorem doCacheWriteDataComplete_waiting_events (st : WritersState) (N : Int) (cm : Bool)
    (hN : 0 ≤ N) (hcs : st.checksum = false) (hwl : st.writeLen = N)
    (hpart : activeIsPartial st = false) :
    ∀ t w, (t, w) ∈ st.waitingForRead →
      WEvent.bufferFilled t.id (st.readBufContent.take (min w.readBufLen N.toNat)) ∈
          (doCacheWriteDataComplete st N cm).2.2 ∧
        WEvent.callbackPosted t.id (Int.ofNat (min w.readBufLen N.toNat)) ∈
          (doCacheWriteDataComplete st N cm).2.2 := by
  intro t w hw
  simp only [doCacheWriteDataComplete, hcs, Bool.false_eq_true, if_false]
  have hcond : ¬ (N ≠ st.writeLen) := by
    rw [hwl]
    simp
  rw [if_neg hcond]
  exact onDataReceived_waiting_events
    ({ st with nextState := WState.none, checksum := false } : WritersState) N hN
    hwl ((activeIsPartial_congr
      (a := ({ st with nextState := WState.none, checksum := false } : WritersState))
      (b := st) rfl rfl).trans hpart) t w hw

def stC6 : WritersState :=
  { baseW with
      nextState := WState.networkReadComplete,
      allWriters := [(txnA, infoA), (txnB, infoA)],
      waitingForRead := [(txnB, { readBufLen := 2 })],
      activeTransaction := some txnA }

/-- C6: with a read cycle in flight (`next_state_` not NONE) a second
consumer's `Read` returns `ERR_IO_PENDING` and is queued in
`waiting_for_read_` without starting a new network read; and when the
in-flight cycle completes with `N >= 0` bytes (the disk write reporting the
full count, no checksum in progress, non-partial active consumer), every
queued consumer sees its buffer filled with the prefix of the bytes the
active consumer received, truncated to its own buffer capacity, and its
callback posted with exactly the number of bytes copied. -/
theorem read_pending_spec (st : WritersState) (t : Txn) (bufLen : Nat)
    (netRv N markRv : Int) (netBytes : List Nat) (cm : Bool)
    (hbusy : st.nextState ≠ WState.none) (hcs : st.checksum = false)
    (hpart : activeIsPartial st = false) (hN : 0 ≤ N) :
    read st t bufLen netRv netBytes N cm markRv =
        (ERR_IO_PENDING,
          { st with waitingForRead := st.waitingForRead ++ [(t, { readBufLen := bufLen })] },
          []) ∧
      ∀ t2 w, (t2, w) ∈ st.waitingForRead →
        WEvent.bufferFilled t2.id (netBytes.take (min w.readBufLen N.toNat)) ∈
            (completeNetworkRead st N netBytes N cm markRv).2.2 ∧
          WEvent.callbackPosted t2.id (Int.ofNat (min w.readBufLen N.toNat)) ∈
            (completeNetworkRead st N netBytes N cm markRv).2.2 := by
  constructor
  · simp only [read, if_pos hbusy]
  · intro t2 w hw
    simp only [completeNetworkRead]
    rw [if_neg (not_lt.mpr hN)]
    rw [doCacheWriteData_shape]
    have hm := doCacheWriteDataComplete_waiting_events
      ({ { { st with readBufContent := netBytes } with nextState := WState.cacheWriteData } with
          nextState := WState.cacheWriteDataComplete, writeLen := N } : WritersState)
      N cm hN hcs rfl
      ((activeIsPartial_congr
        (a := ({ { { st with readBufContent := netBytes } with
            nextState := WState.cacheWriteData } with
            nextState := WState.cacheWriteDataComplete, writeLen := N } : WritersState))
        (b := st) rfl rfl).trans hpart) t2 w hw
    split
    · exact ⟨List.mem_append_left _ (List.mem_append_left _ (List.mem_append_right _ hm.1)),
        List.mem_append_left _ (List.mem_append_left _ (List.mem_append_right _ hm.2))⟩
    · exact ⟨List.mem_append_right _ hm.1, List.mem_append_right _ hm.2⟩

theorem read_pending_spec_witness :
    (stC6.nextState ≠ WState.none ∧ stC6.checksum = false ∧ activeIsPartial stC6 = false ∧
        (0 : Int) ≤ 3) ∧
      (read stC6 txnA 4 3 [9, 9, 9] 3 false 0 =
          (ERR_IO_PENDING,
            { stC6 with waitingForRead := stC6.waitingForRead ++ [(txnA, { readBufLen := 4 })] },
            []) ∧
        ∀ t2 w, (t2, w) ∈ stC6.waitingForRead →
          WEvent.bufferFilled t2.id (List.take (min w.readBufLen (3 : Int).toNat) [9, 9, 9]) ∈
              (completeNetworkRead stC6 3 [9, 9, 9] 3 false 0).2.2 ∧
            WEvent.callbackPosted t2.id (Int.ofNat (min w.readBufLen (3 : Int).toNat)) ∈
              (completeNetworkRead stC6 3 [9, 9, 9] 3 false 0).2.2) :=
  ⟨⟨by decide, by decide, by decide, by decide⟩,
    read_pending_spec stC6 txnA 4 3 3 0 [9, 9, 9] false (by decide) (by decide) (by decide)
      (by decide)⟩

end Writers
